import Mathlib

/-!
Verification development for the snowboard-reader core
(`packages/snowboard-reader/src/index.js`).

The JavaScript source is shallowly embedded over `List Char`:

* the hand-written regex chain of `rewriteSource` is modelled by a small
  backtracking matcher covering exactly the regex features those patterns
  use (literals, greedy `(.+)` and `([0-9]+)` capture groups, `\s?`, an
  unescaped `.`, with JS semantics: leftmost match, greedy backtracking,
  `.` not matching a line terminator (LF, CR, U+2028, U+2029), `\s` the
  full JS whitespace class, global replacement continuing after each
  match);
* JSON values are an inductive `Json` (numbers restricted to integers:
  no seed fixture in scope uses fractions, and floating point is outside
  the embedding);
* lodash `merge` is `mergeJ`, following the documented semantics: plain
  objects merge recursively key by key, arrays merge index-wise, any
  other source value overrides the destination by assignment;
* the file system is an association list from absolute path to contents,
  `fs.readFileSync` / `JSON.parse` failures become `Except` errors;
* the Handlebars engine is modelled by `renderT`: interpolation of
  dotted paths, the two registered helpers (`join`, `upcase`) and
  substitution of registered partials, with `noEscape` (no HTML
  escaping).  Whitespace-control / standalone-line trimming is not
  modelled; no theorem below depends on it;
* the recursive walks (`loadPartials`, `extractChildren`, partial
  substitution in `renderT`) take explicit fuel, since the JS code has
  no cycle guard and can diverge on cyclic references.
-/

def cs (s : String) : List Char := s.data

/-! ### The regex fragment used by the reader -/
inductive RItem where
  | lit (l : List Char)
  | grp
  | grpDigits
  | wsOpt
  | chAny
deriving DecidableEq

abbrev Pat := List RItem

/-- JS `\s`: the ASCII whitespace characters together with NBSP, the
Unicode space separators, the line/paragraph separators and the BOM. -/
def isWsChar (c : Char) : Bool :=
  c = ' ' || c = '\t' || c = '\n' || c = '\r' || c = '\x0b' || c = '\x0c' ||
  c.toNat = 0xa0 || c.toNat = 0x1680 ||
  (0x2000 ≤ c.toNat && c.toNat ≤ 0x200a) ||
  c.toNat = 0x2028 || c.toNat = 0x2029 || c.toNat = 0x202f ||
  c.toNat = 0x205f || c.toNat = 0x3000 || c.toNat = 0xfeff

/-- The JS regex line terminators: `.` in a regex without the `s` flag
matches any character except these four. -/
def isLineTerm (c : Char) : Bool :=
  c = '\n' || c = '\r' || c.toNat = 0x2028 || c.toNat = 0x2029

/-- Match a literal; returns the rest of the input on success. -/
def litPref : List Char → List Char → Option (List Char)
  | [], t => some t
  | _ :: _, [] => none
  | c :: l, d :: t => if c = d then litPref l t else none

/-- Candidate splits for a greedy group, longest first:
`(s.take n, s.drop n), …, (s.take 1, s.drop 1)`. -/
def prefixesDesc (s : List Char) : Nat → List (List Char × List Char)
  | 0 => []
  | n+1 => (s.take (n+1), s.drop (n+1)) :: prefixesDesc s n

def firstSome (f : α → Option β) : List α → Option β
  | [] => none
  | a :: as => match f a with | some b => some b | none => firstSome f as

/-- Try to match a pattern at the start of the input.  On success returns
the list of captured groups and the remaining input.  Greedy items
backtrack longest-first, as a JS regex engine does. -/
def matchAt : Pat → List Char → Option (List (List Char) × List Char)
  | [], s => some ([], s)
  | .lit l :: rest, s =>
    match litPref l s with
    | some t => matchAt rest t
    | none => none
  | .grp :: rest, s =>
    firstSome (fun pp => (matchAt rest pp.2).map (fun cr => (pp.1 :: cr.1, cr.2)))
      (prefixesDesc s (s.takeWhile (fun c => !isLineTerm c)).length)
  | .grpDigits :: rest, s =>
    firstSome (fun pp => (matchAt rest pp.2).map (fun cr => (pp.1 :: cr.1, cr.2)))
      (prefixesDesc s (s.takeWhile (fun c => c.isDigit)).length)
  | .wsOpt :: rest, s =>
    match s with
    | [] => matchAt rest []
    | c :: s' =>
      if isWsChar c then
        match matchAt rest s' with
        | some res => some res
        | none => matchAt rest (c :: s')
      else matchAt rest (c :: s')
  | .chAny :: rest, s =>
    match s with
    | [] => none
    | c :: s' => if isLineTerm c then none else matchAt rest s'

/-- Global regex replacement (`String.prototype.replace` with a `/g`
regex): scan left to right, at each position try the pattern; on a match
emit the template applied to the captures and continue after the match
(advancing one character if the match were empty, as JS does). -/
def replaceGF (p : Pat) (tmpl : List (List Char) → List Char) :
    Nat → List Char → List Char
  | 0, s => s
  | _+1, [] =>
    match matchAt p [] with
    | some (caps, _) => tmpl caps
    | none => []
  | fuel+1, c :: rest =>
    match matchAt p (c :: rest) with
    | none => c :: replaceGF p tmpl fuel rest
    | some (caps, r) =>
      if r.length < rest.length + 1 then tmpl caps ++ replaceGF p tmpl fuel r
      else tmpl caps ++ c :: replaceGF p tmpl fuel rest

def replaceG (p : Pat) (tmpl : List (List Char) → List Char) (s : List Char) :
    List Char :=
  replaceGF p tmpl (s.length + 1) s

/-- The `matchAll` exec-loop of the source: collect the capture lists of
all (non-overlapping, leftmost, greedy) matches. -/
def scanAllF (p : Pat) : Nat → List Char → List (List (List Char))
  | 0, _ => []
  | _+1, [] =>
    match matchAt p [] with
    | some (caps, _) => [caps]
    | none => []
  | fuel+1, c :: rest =>
    match matchAt p (c :: rest) with
    | none => scanAllF p fuel rest
    | some (caps, r) =>
      if r.length < rest.length + 1 then caps :: scanAllF p fuel r
      else caps :: scanAllF p fuel rest

def scanAll (p : Pat) (s : List Char) : List (List (List Char)) :=
  scanAllF p (s.length + 1) s

/-! ### The patterns of `index.js`, transcribed one regex each -/
/-- `/{{> (.+)}}/g` -/
def patPartialRef : Pat := [.lit (cs "\x7b\x7b> "), .grp, .lit (cs "\x7d\x7d")]

/-- `/<!-- seed\((.+)\) -->/g` -/
def patSeedComment : Pat := [.lit (cs "<!-- seed("), .grp, .lit (cs ") -->")]

/-- `/<!-- partial\((.+)\) -->/g` -/
def pComPart : Pat := [.lit (cs "<!-- partial("), .grp, .lit (cs ") -->")]

/-- `/<!-- include\((.+)\) -->/g` -/
def pComInc : Pat := [.lit (cs "<!-- include("), .grp, .lit (cs ") -->")]

/-- `/{{\s?partial "(.+)"\s?}}/g` -/
def pQuotPart : Pat :=
  [.lit (cs "\x7b\x7b"), .wsOpt, .lit (cs "partial \""), .grp, .lit (cs "\""),
   .wsOpt, .lit (cs "\x7d\x7d")]

/-- `/{{\s?include "(.+)"\s?}}/g` -/
def pQuotInc : Pat :=
  [.lit (cs "\x7b\x7b"), .wsOpt, .lit (cs "include \""), .grp, .lit (cs "\""),
   .wsOpt, .lit (cs "\x7d\x7d")]

/-- `/{{\s?seed "(.+)"\s?}}/g` -/
def pQuotSeed : Pat :=
  [.lit (cs "\x7b\x7b"), .wsOpt, .lit (cs "seed \""), .grp, .lit (cs "\""),
   .wsOpt, .lit (cs "\x7d\x7d")]

/-- `/{{with index \.(.+) "([0-9]+)"}}{{with index \.(.+) "([0-9]+)"}}\s?{{\.(.+)}}\s?{{end}}{{end}}/g` -/
def pWithTwo : Pat :=
  [.lit (cs "\x7b\x7bwith index ."), .grp, .lit (cs " \""), .grpDigits,
   .lit (cs "\"\x7d\x7d\x7b\x7bwith index ."), .grp, .lit (cs " \""), .grpDigits,
   .lit (cs "\"\x7d\x7d"), .wsOpt, .lit (cs "\x7b\x7b."), .grp, .lit (cs "\x7d\x7d"),
   .wsOpt, .lit (cs "\x7b\x7bend\x7d\x7d\x7b\x7bend\x7d\x7d")]

/-- `/{{with index \.(.+) "([0-9]+)"}}\s?{{\.(.+)}}\s?{{end}}/g` -/
def pWithOne : Pat :=
  [.lit (cs "\x7b\x7bwith index ."), .grp, .lit (cs " \""), .grpDigits,
   .lit (cs "\"\x7d\x7d"), .wsOpt, .lit (cs "\x7b\x7b."), .grp, .lit (cs "\x7d\x7d"),
   .wsOpt, .lit (cs "\x7b\x7bend\x7d\x7d")]

/-- `/{{with index \.(.+) "([0-9]+)"}}\s?{{join \.(.+) ",\s?"}}\s?{{end}}/g` -/
def pWithJoin : Pat :=
  [.lit (cs "\x7b\x7bwith index ."), .grp, .lit (cs " \""), .grpDigits,
   .lit (cs "\"\x7d\x7d"), .wsOpt, .lit (cs "\x7b\x7bjoin ."), .grp,
   .lit (cs " \","), .wsOpt, .lit (cs "\"\x7d\x7d"), .wsOpt, .lit (cs "\x7b\x7bend\x7d\x7d")]

/-- `/{{join .(.+) ",\s?"}}/g` — the first dot is unescaped in the source,
so it matches any single character. -/
def pJoin : Pat :=
  [.lit (cs "\x7b\x7bjoin "), .chAny, .grp, .lit (cs " \","), .wsOpt,
   .lit (cs "\"\x7d\x7d")]

/-- `/{{\.(.+) \| upcase}}/g` -/
def pUpcase : Pat := [.lit (cs "\x7b\x7b."), .grp, .lit (cs " | upcase\x7d\x7d")]

/-- `/{{\./g` -/
def pDotStrip : Pat := [.lit (cs "\x7b\x7b.")]

def cap (caps : List (List Char)) (i : Nat) : List Char := (caps.get? i).getD []

def tmplPartialRef (caps : List (List Char)) : List Char :=
  cs "\x7b\x7b> " ++ cap caps 0 ++ cs "\x7d\x7d"

def tmplSeedComment (caps : List (List Char)) : List Char :=
  cs "<!-- seed(" ++ cap caps 0 ++ cs ") -->"

def tmplDots5 (caps : List (List Char)) : List Char :=
  cs "\x7b\x7b" ++ cap caps 0 ++ cs "." ++ cap caps 1 ++ cs "." ++ cap caps 2 ++
    cs "." ++ cap caps 3 ++ cs "." ++ cap caps 4 ++ cs "\x7d\x7d"

def tmplDots3 (caps : List (List Char)) : List Char :=
  cs "\x7b\x7b" ++ cap caps 0 ++ cs "." ++ cap caps 1 ++ cs "." ++ cap caps 2 ++
    cs "\x7d\x7d"

def tmplJoin (caps : List (List Char)) : List Char :=
  cs "\x7b\x7bjoin " ++ cap caps 0 ++ cs "\x7d\x7d"

def tmplUpcase (caps : List (List Char)) : List Char :=
  cs "\x7b\x7bupcase " ++ cap caps 0 ++ cs "\x7d\x7d"

def tmplBraces (_ : List (List Char)) : List Char := cs "\x7b\x7b"

/-! ### `rewriteSource`, `cleanupSource`, `extractPartials`, `extractSeeds` -/
/-- `rewriteSource` of `index.js`: append one newline, then run the
eleven replacement passes in source order. -/
def rewriteSource (source : List Char) : List Char :=
  let d0 := source ++ ['\n']
  let d1 := replaceG pComPart tmplPartialRef d0
  let d2 := replaceG pComInc tmplPartialRef d1
  let d3 := replaceG pQuotPart tmplPartialRef d2
  let d4 := replaceG pQuotInc tmplPartialRef d3
  let d5 := replaceG pQuotSeed tmplSeedComment d4
  let d6 := replaceG pWithTwo tmplDots5 d5
  let d7 := replaceG pWithOne tmplDots3 d6
  let d8 := replaceG pWithJoin tmplDots3 d7
  let d9 := replaceG pJoin tmplJoin d8
  let d10 := replaceG pUpcase tmplUpcase d9
  replaceG pDotStrip tmplBraces d10

/-- `cleanupSource`: strip seed comments. -/
def cleanupSource (source : List Char) : List Char :=
  replaceG patSeedComment (fun _ => []) source

/-- `extractPartials`: capture lists of all partial-reference matches. -/
def extractPartials (source : List Char) : List (List (List Char)) :=
  scanAll patPartialRef source

/-- `extractSeeds`: capture lists of all seed-comment matches, reversed. -/
def extractSeeds (source : List Char) : List (List (List Char)) :=
  (scanAll patSeedComment source).reverse

/-! ### JSON values and lodash `merge` -/
inductive Json where
  | null : Json
  | bool (b : Bool) : Json
  | num (n : Int) : Json
  | str (s : List Char) : Json
  | arr (xs : List Json) : Json
  | obj (fields : List (List Char × Json)) : Json

/-- First-match association-list lookup (JS object keys are unique). -/
def lookupF (fs : List (List Char × Json)) (k : List Char) : Option Json :=
  match fs with
  | [] => none
  | (k0, v) :: rest => if k0 = k then some v else lookupF rest k

def removeKey (fs : List (List Char × Json)) (k : List Char) :
    List (List Char × Json) :=
  match fs with
  | [] => []
  | (k0, v) :: rest =>
    if k0 = k then removeKey rest k else (k0, v) :: removeKey rest k

/-- JS property assignment on an object: an existing key keeps its
position and gets the new value, a new key is appended. -/
def upsertF (fs : List (List Char × Json)) (k : List Char) (v : Json) :
    List (List Char × Json) :=
  match fs with
  | [] => [(k, v)]
  | (k0, v0) :: rest =>
    if k0 = k then (k0, v) :: rest else (k0, v0) :: upsertF rest k v

mutual
/-- lodash `merge(dst, src)` on JSON trees, per its documented
semantics: plain objects merge recursively key by key (source keys not
in the destination are appended in source order), arrays merge
index-wise, and any other source value overrides the destination by
assignment. -/
def mergeJ : Json → Json → Json
  | .obj df, .obj sf => .obj (mergeFields df sf)
  | .arr da, .arr sa => .arr (mergeArr da sa)
  | _, s => s

def mergeFields :
    List (List Char × Json) → List (List Char × Json) → List (List Char × Json)
  | [], sf => sf
  | (k, d) :: df, sf =>
    match lookupF sf k with
    | some s => (k, mergeJ d s) :: mergeFields df (removeKey sf k)
    | none => (k, d) :: mergeFields df sf

def mergeArr : List Json → List Json → List Json
  | da, [] => da
  | [], sa => sa
  | d :: da, s :: sa => mergeJ d s :: mergeArr da sa
end

def isScalar : Json → Bool
  | .obj _ => false
  | .arr _ => false
  | _ => true

def lookupJ (j : Json) (k : List Char) : Option Json :=
  match j with
  | .obj fs => lookupF fs k
  | _ => none

/-! ### A strict JSON parser (`JSON.parse`)

Numbers are restricted to (optionally signed) integer literals; the
fixtures in scope use no fractions or exponents. -/
def hexVal (c : Char) : Option Nat :=
  if c.isDigit then some (c.toNat - 48)
  else if 'a' ≤ c ∧ c ≤ 'f' then some (c.toNat - 87)
  else if 'A' ≤ c ∧ c ≤ 'F' then some (c.toNat - 70)
  else none

def parseHex4 : List Char → Option (Nat × List Char)
  | a :: b :: c :: d :: rest => do
    let va ← hexVal a
    let vb ← hexVal b
    let vc ← hexVal c
    let vd ← hexVal d
    some (((va * 16 + vb) * 16 + vc) * 16 + vd, rest)
  | _ => none

def parseJString : Nat → List Char → Option (List Char × List Char)
  | 0, _ => none
  | _+1, [] => none
  | fuel+1, c :: rest =>
    if c = '"' then some ([], rest)
    else if c = '\\' then
      match rest with
      | [] => none
      | e :: rest' =>
        let cont (ch : Char) (r : List Char) : Option (List Char × List Char) :=
          (parseJString fuel r).map (fun pr => (ch :: pr.1, pr.2))
        if e = '"' then cont '"' rest'
        else if e = '\\' then cont '\\' rest'
        else if e = '/' then cont '/' rest'
        else if e = 'b' then cont '\x08' rest'
        else if e = 'f' then cont '\x0c' rest'
        else if e = 'n' then cont '\n' rest'
        else if e = 'r' then cont '\r' rest'
        else if e = 't' then cont '\t' rest'
        else if e = 'u' then
          match parseHex4 rest' with
          | some (n, r) => cont (Char.ofNat n) r
          | none => none
        else none
    else if c = '\n' then none
    else (parseJString fuel rest).map (fun pr => (c :: pr.1, pr.2))

/-- The whitespace `JSON.parse` accepts between tokens: exactly space,
tab, line feed and carriage return (narrower than the regex `\s`). -/
def isJsonWs (c : Char) : Bool := c = ' ' || c = '\t' || c = '\n' || c = '\r'

def skipWs (s : List Char) : List Char := s.dropWhile (fun c => isJsonWs c)

def digitsToNat (acc : Nat) : List Char → Nat
  | [] => acc
  | c :: rest => digitsToNat (acc * 10 + (c.toNat - 48)) rest

mutual
def parseJValue : Nat → List Char → Option (Json × List Char)
  | 0, _ => none
  | fuel+1, s =>
    let s := skipWs s
    match s with
    | [] => none
    | c :: rest =>
      if c = '"' then
        (parseJString (rest.length + 1) rest).map (fun pr => (.str pr.1, pr.2))
      else if c = '\x7b' then parseJObj fuel (skipWs rest) true
      else if c = '[' then parseJArr fuel (skipWs rest) true
      else if c = 't' then
        match litPref (cs "rue") rest with
        | some r => some (.bool true, r)
        | none => none
      else if c = 'f' then
        match litPref (cs "alse") rest with
        | some r => some (.bool false, r)
        | none => none
      else if c = 'n' then
        match litPref (cs "ull") rest with
        | some r => some (.null, r)
        | none => none
      else if c = '-' then
        match rest.takeWhile (fun d => d.isDigit) with
        | [] => none
        | ds => some (.num (-(digitsToNat 0 ds : Int)),
            rest.dropWhile (fun d => d.isDigit))
      else if c.isDigit then
        let ds := s.takeWhile (fun d => d.isDigit)
        some (.num (digitsToNat 0 ds : Int), s.dropWhile (fun d => d.isDigit))
      else none

def parseJObj (fuel : Nat) (s : List Char) (first : Bool) :
    Option (Json × List Char) :=
  match fuel with
  | 0 => none
  | fuel+1 =>
    match s with
    | [] => none
    | c :: rest =>
      if c = '\x7d' ∧ first then some (.obj [], rest)
      else
        match parseJFields fuel s [] with
        | some (fs, r) => some (.obj fs, r)
        | none => none

def parseJFields (fuel : Nat) (s : List Char)
    (acc : List (List Char × Json)) : Option (List (List Char × Json) × List Char) :=
  match fuel with
  | 0 => none
  | fuel+1 =>
    match skipWs s with
    | '"' :: rest =>
      match parseJString (rest.length + 1) rest with
      | none => none
      | some (k, r1) =>
        match skipWs r1 with
        | ':' :: r2 =>
          match parseJValue fuel r2 with
          | none => none
          | some (v, r3) =>
            let acc := upsertF acc k v
            match skipWs r3 with
            | ',' :: r4 => parseJFields fuel r4 acc
            | '\x7d' :: r4 => some (acc, r4)
            | _ => none
        | _ => none
    | _ => none

def parseJArr (fuel : Nat) (s : List Char) (first : Bool) :
    Option (Json × List Char) :=
  match fuel with
  | 0 => none
  | fuel+1 =>
    match s with
    | [] => none
    | c :: rest =>
      if c = ']' ∧ first then some (.arr [], rest)
      else
        match parseJItems fuel s [] with
        | some (xs, r) => some (.arr xs, r)
        | none => none

def parseJItems (fuel : Nat) (s : List Char) (acc : List Json) :
    Option (List Json × List Char) :=
  match fuel with
  | 0 => none
  | fuel+1 =>
    match parseJValue fuel s with
    | none => none
    | some (v, r) =>
      match skipWs r with
      | ',' :: r2 => parseJItems fuel r2 (acc ++ [v])
      | ']' :: r2 => some (acc ++ [v], r2)
      | _ => none
end

/-- `JSON.parse`: a whole-input strict JSON document. -/
def jsonParse (s : List Char) : Option Json :=
  match parseJValue (s.length + 1) s with
  | some (v, r) => if skipWs r = [] then some v else none
  | none => none

/-! ### Paths and the file system -/
def isAbsPath (p : List Char) : Bool :=
  match p with
  | '/' :: _ => true
  | _ => false

/-- `path.resolve(cwd, p)` for the simple paths in scope (no `.`/`..`
normalization — no fixture uses them). -/
def resolve1 (cwd p : List Char) : List Char :=
  if isAbsPath p then p else cwd ++ '/' :: p

/-- `path.resolve(dir, rel)` with `dir` itself resolved against the
process working directory when relative. -/
def pathResolve (cwd dir rel : List Char) : List Char :=
  if isAbsPath rel then rel else resolve1 cwd (dir ++ '/' :: rel)

def lastSlashIdx (p : List Char) : Option Nat :=
  match p.reverse.findIdx? (fun c => c = '/') with
  | none => none
  | some i => some (p.length - 1 - i)

/-- `path.dirname`. -/
def pathDirname (p : List Char) : List Char :=
  match lastSlashIdx p with
  | none => cs "."
  | some 0 => cs "/"
  | some i => p.take i

/-- The file system: association list from path to contents. -/
abbrev FS := List (List Char × List Char)

def lookupFS (fs : FS) (p : List Char) : Option (List Char) :=
  match fs with
  | [] => none
  | (k, v) :: rest => if k = p then some v else lookupFS rest p

inductive RErr where
  | notFound (p : List Char)
  | badJson (p : List Char)
  | missingInclude (name : List Char)
  | badTemplate
  | fuelOut
deriving DecidableEq

/-! ### `loadSeeds` -/
/-- The `forEach` body of `loadSeeds`: read and parse each referenced
seed file, merging each into the accumulator (`merge(seeds, data)`). -/
def loadSeedsGo (fs : FS) (cwd dir : List Char) :
    List (List (List Char)) → Json → Except RErr Json
  | [], seeds => .ok seeds
  | caps :: rest, seeds =>
    let p := pathResolve cwd dir (cap caps 0)
    match lookupFS fs p with
    | none => .error (.notFound p)
    | some content =>
      match jsonParse content with
      | none => .error (.badJson p)
      | some data => loadSeedsGo fs cwd dir rest (mergeJ seeds data)

def loadSeeds (fs : FS) (cwd : List Char) (source dir : List Char) :
    Except RErr Json :=
  loadSeedsGo fs cwd dir (extractSeeds source) (.obj [])

/-! ### The Handlebars engine model -/
/-- Split at the first `}}`; `none` if the mustache never closes
(Handlebars would raise a compile error). -/
def splitClose : Nat → List Char → Option (List Char × List Char)
  | 0, _ => none
  | _+1, [] => none
  | fuel+1, c :: rest =>
    match rest with
    | '\x7d' :: rest2 =>
      if c = '\x7d' then some ([], rest2)
      else (splitClose fuel rest).map (fun pr => (c :: pr.1, pr.2))
    | _ => (splitClose fuel rest).map (fun pr => (c :: pr.1, pr.2))

def trimChars (s : List Char) : List Char :=
  ((s.dropWhile (fun c => isWsChar c)).reverse.dropWhile (fun c => isWsChar c)).reverse

def splitOnDotGo (cur : List Char) (acc : List (List Char)) :
    List Char → List (List Char)
  | [] => acc ++ [cur.reverse]
  | c :: rest =>
    if c = '.' then splitOnDotGo [] (acc ++ [cur.reverse]) rest
    else splitOnDotGo (c :: cur) acc rest

def splitOnDot (s : List Char) : List (List Char) :=
  splitOnDotGo [] [] s

def pathLookup (ctx : Json) : List (List Char) → Option Json
  | [] => some ctx
  | seg :: rest =>
    match ctx with
    | .obj fs =>
      match lookupF fs seg with
      | some v => pathLookup v rest
      | none => none
    | .arr xs =>
      if seg ≠ [] ∧ seg.all (fun c => c.isDigit) then
        match xs.get? (digitsToNat 0 seg) with
        | some v => pathLookup v rest
        | none => none
      else none
    | _ => none

def natToCharsAux : Nat → Nat → List Char
  | 0, _ => []
  | fuel+1, n =>
    if n < 10 then [Char.ofNat (48 + n)]
    else natToCharsAux fuel (n / 10) ++ [Char.ofNat (48 + n % 10)]

def natToChars (n : Nat) : List Char := natToCharsAux (n + 1) n

def intToChars : Int → List Char
  | .ofNat n => natToChars n
  | .negSucc m => '-' :: natToChars (m + 1)

def joinChars (xs : List (List Char)) (sep : List Char) : List Char :=
  match xs with
  | [] => []
  | [x] => x
  | x :: rest => x ++ sep ++ joinChars rest sep

mutual
/-- JS stringification of a context value interpolated into a template
(`String(v)`; Handlebars renders `null`/`undefined` as the empty
string). -/
def jsToString : Json → List Char
  | .null => []
  | .bool true => cs "true"
  | .bool false => cs "false"
  | .num n => intToChars n
  | .str s => s
  | .arr xs => joinChars (jsToStringList xs) (cs ",")
  | .obj _ => cs "[object Object]"

def jsToStringList : List Json → List (List Char)
  | [] => []
  | x :: rest => jsToString x :: jsToStringList rest
end

def upcaseChars (s : List Char) : List Char := s.map Char.toUpper

/-- Evaluate one mustache body against the context: the two registered
helpers, else a dotted-path interpolation (missing paths render
empty, as Handlebars does). -/
def evalTag (ctx : Json) (body : List Char) : Except RErr (List Char) :=
  let t := trimChars body
  match litPref (cs "upcase ") t with
  | some arg =>
    match pathLookup ctx (splitOnDot (trimChars arg)) with
    | some v => .ok (upcaseChars (jsToString v))
    | none => .error .badTemplate
  | none =>
    match litPref (cs "join ") t with
    | some arg =>
      match pathLookup ctx (splitOnDot (trimChars arg)) with
      | some (.arr xs) => .ok (joinChars (jsToStringList xs) (cs ", "))
      | _ => .error .badTemplate
    | none =>
      match pathLookup ctx (splitOnDot t) with
      | some v => .ok (jsToString v)
      | none => .ok []

def lookupPM (pm : List (List Char × List Char)) (k : List Char) :
    Option (List Char) :=
  match pm with
  | [] => none
  | (k0, v) :: rest => if k0 = k then some v else lookupPM rest k

def upsertPM (pm : List (List Char × List Char)) (k v : List Char) :
    List (List Char × List Char) :=
  match pm with
  | [] => [(k, v)]
  | (k0, v0) :: rest =>
    if k0 = k then (k0, v) :: rest else (k0, v0) :: upsertPM rest k v

def upsertAllPM (pm : List (List Char × List Char))
    (entries : List (List Char × List Char)) : List (List Char × List Char) :=
  match entries with
  | [] => pm
  | (k, v) :: rest => upsertAllPM (upsertPM pm k v) rest

/-- Compile-and-render a template against registered partials and a
context (`handlebars.compile(text, {noEscape: true})` followed by
`template(ctx)`).  A `{{> name}}` splices the registered partial,
itself re-parsed as a template (the reader registers already-rendered
text); an unregistered partial name is an error, as in Handlebars.
Handlebars standalone-line whitespace handling (stripping the
surrounding indentation and trailing newline of a line holding only a
partial call) is not modelled, so no theorem observes the rendered
output of a template in which a partial reference stands alone on a
line. -/
def renderT (partials : List (List Char × List Char)) (ctx : Json) :
    Nat → List Char → Except RErr (List Char)
  | 0, _ => .error .fuelOut
  | _+1, [] => .ok []
  | fuel+1, c :: rest =>
    match c, rest with
    | '\x7b', '\x7b' :: rest2 =>
      match splitClose (rest2.length + 1) rest2 with
      | none => .error .badTemplate
      | some (body, rest3) =>
        let t := trimChars body
        match t with
        | '>' :: nm =>
          let name := trimChars nm
          match lookupPM partials name with
          | none => .error (.missingInclude name)
          | some ptext =>
            match renderT partials ctx fuel ptext with
            | .error e => .error e
            | .ok rendered =>
              match renderT partials ctx fuel rest3 with
              | .error e => .error e
              | .ok tail => .ok (rendered ++ tail)
        | _ =>
          match evalTag ctx body with
          | .error e => .error e
          | .ok piece =>
            match renderT partials ctx fuel rest3 with
            | .error e => .error e
            | .ok tail => .ok (piece ++ tail)
    | _, _ =>
      match renderT partials ctx fuel rest with
      | .error e => .error e
      | .ok tail => .ok (c :: tail)

/-! ### `loadPartials`

The JS function mutates a shared `seeds` object and a per-call
Handlebars instance; here the seed context and a render trace are
threaded explicitly and each call returns its own partial map.  The
`renders` component is instrumentation: it records, in order, the
reference string of every `template(seeds)` call performed
(`partials[item[1]] = template(seeds)`). -/
inductive LPIn where
  | source (src dir : List Char)
  | items (its : List (List (List Char))) (dir : List Char)
      (pmap hb : List (List Char × List Char))

def lpf (fs : FS) (cwd : List Char) (rfuel : Nat) :
    Nat → LPIn → Json × List (List Char) →
    Except RErr (Json × List (List Char) × List (List Char × List Char))
  | 0, _, _ => .error .fuelOut
  | fuel+1, .source src dir, st =>
    lpf fs cwd rfuel fuel (.items (extractPartials src) dir [] []) st
  | _+1, .items [] _ pmap _, (seeds, renders) => .ok (seeds, renders, pmap)
  | fuel+1, .items (caps :: rest) dir pmap hb, (seeds, renders) =>
    let ref := cap caps 0
    let inputFile := pathResolve cwd dir ref
    match lookupFS fs inputFile with
    | none => .error (.notFound inputFile)
    | some csource =>
      let sourceDir := pathDirname inputFile
      let data := rewriteSource csource
      match loadSeeds fs cwd csource sourceDir with
      | .error e => .error e
      | .ok childrenSeeds =>
        match lpf fs cwd rfuel fuel (.source data sourceDir) (seeds, renders) with
        | .error e => .error e
        | .ok (seeds1, renders1, childrenPartials) =>
          let hb1 := upsertAllPM hb childrenPartials
          let pmap1 := upsertAllPM pmap childrenPartials
          let seeds2 := mergeJ seeds1 childrenSeeds
          match renderT hb1 seeds2 rfuel (cleanupSource data) with
          | .error e => .error e
          | .ok rendered =>
            lpf fs cwd rfuel fuel (.items rest dir (upsertPM pmap1 ref rendered) hb1)
              (seeds2, renders1 ++ [ref])

def loadPartials (fs : FS) (cwd : List Char) (rfuel fuel : Nat)
    (source : List Char) (seeds : Json) (dir : List Char) :
    Except RErr (Json × List (List Char) × List (List Char × List Char)) :=
  lpf fs cwd rfuel fuel (.source source dir) (seeds, [])

/-! ### `rewriteInput`, `read` -/
structure ResolveOut where
  seeds : Json
  partials : List (List Char × List Char)
  renders : List (List Char)
  output : List Char

/-- `rewriteInput`: normalize, load the root seeds, resolve all
partials (mutating the seed context), register every partial, then
compile and render the seed-stripped root. -/
def rewriteInput (fs : FS) (cwd : List Char) (rfuel fuel : Nat)
    (source dir : List Char) : Except RErr ResolveOut :=
  let data := rewriteSource source
  match loadSeeds fs cwd data dir with
  | .error e => .error e
  | .ok seeds0 =>
    match loadPartials fs cwd rfuel fuel data seeds0 dir with
    | .error e => .error e
    | .ok (seeds1, renders, partials) =>
      match renderT partials seeds1 rfuel (cleanupSource data) with
      | .error e => .error e
      | .ok out => .ok ⟨seeds1, partials, renders, out⟩

/-- The public `read`: read the root file and resolve-and-render it. -/
def readRoot (fs : FS) (cwd : List Char) (rfuel fuel : Nat)
    (input : List Char) : Except RErr ResolveOut :=
  match lookupFS fs (resolve1 cwd input) with
  | none => .error (.notFound input)
  | some source => rewriteInput fs cwd rfuel fuel source (pathDirname input)

/-! ### `extractChildren`, `extractPaths` -/
inductive ECIn where
  | file (source dir : List Char)
  | refs (rs : List (List Char)) (dir : List Char)

/-- `extractChildren` (the dependency walk): for the current file,
normalize, then for each partial directive recurse into the referenced
file (itself read and normalized by `resolveFile`), after which the
immediate partial paths and then the seed paths of the current file are
appended.  `extractSeeds` reverses, so sibling seed paths appear in
reverse document order. -/
def ecf (fs : FS) (cwd : List Char) :
    Nat → ECIn → Except RErr (List (List Char))
  | 0, _ => .error .fuelOut
  | fuel+1, .file source dir =>
    let sc := rewriteSource source
    let prts := (extractPartials sc).map (fun caps => cap caps 0)
    let sds := (extractSeeds sc).map (fun caps => cap caps 0)
    match ecf fs cwd fuel (.refs prts dir) with
    | .error e => .error e
    | .ok sub =>
      .ok (sub ++ prts.map (fun r => pathResolve cwd dir r) ++
        sds.map (fun r => pathResolve cwd dir r))
  | _+1, .refs [] _ => .ok []
  | fuel+1, .refs (r :: rs) dir =>
    let inputFile := pathResolve cwd dir r
    match lookupFS fs inputFile with
    | none => .error (.notFound inputFile)
    | some content =>
      match ecf fs cwd fuel (.file (rewriteSource content) (pathDirname inputFile)) with
      | .error e => .error e
      | .ok sub1 =>
        match ecf fs cwd fuel (.refs rs dir) with
        | .error e => .error e
        | .ok sub2 => .ok (sub1 ++ sub2)

def extractChildren (fs : FS) (cwd : List Char) (fuel : Nat)
    (source dir : List Char) : Except RErr (List (List Char)) :=
  ecf fs cwd fuel (.file source dir)

/-- The public `extractPaths`: the resolved root first, then the
dependency walk. -/
def extractPaths (fs : FS) (cwd : List Char) (fuel : Nat)
    (input : List Char) : Except RErr (List (List Char)) :=
  match lookupFS fs (resolve1 cwd input) with
  | none => .error (.notFound input)
  | some source =>
    match extractChildren fs cwd fuel source (pathDirname input) with
    | .error e => .error e
    | .ok children => .ok (resolve1 cwd input :: children)

/-- No suffix of `s` matches the pattern. -/
def NoMatch (p : Pat) (s : List Char) : Prop :=
  ∀ n, matchAt p (s.drop n) = none

instance (p : Pat) (s : List Char) : Decidable (NoMatch p s) :=
  decidable_of_iff (∀ n < s.length + 1, matchAt p (s.drop n) = none)
    (by
      constructor
      · intro h n
        by_cases hn : n ≤ s.length
        · exact h n (by omega)
        · have hnil : s.drop n = [] := List.drop_eq_nil_of_le (by omega)
          have h0 := h s.length (by omega)
          rw [List.drop_length] at h0
          rw [hnil]
          exact h0
      · intro h n _
        exact h n)

/-! ### Reference strings and canonical segments -/
/-- Characters allowed in a reference string (file names such as
`child.txt`, `dir/a-b_c.json`). -/
def refChars : List Char :=
  cs "ABCDEFGHIJKLMNOPQRSTUVWXYZabcdefghijklmnopqrstuvwxyz0123456789._-/"

/-- A well-formed reference string: nonempty, made of `refChars`. -/
def goodRef (x : List Char) : Prop := x ≠ [] ∧ ∀ c ∈ x, c ∈ refChars

instance (x : List Char) : Decidable (goodRef x) := by
  unfold goodRef
  infer_instance

/-- The canonical result of rewriting one partial directive with
reference `x`, followed by a newline and arbitrary further text. -/
def canonSeg (x t : List Char) : List Char :=
  '\x7b' :: '\x7b' :: '>' :: ' ' :: (x ++ ('\x7d' :: '\x7d' :: '\n' :: t))

/-- A quoted-helper legacy directive segment
(`{{word "x"}}` followed by a newline and further text). -/
def quotSeg (w0 : Char) (w' x t : List Char) : List Char :=
  '\x7b' :: '\x7b' :: w0 :: (w' ++ (x ++ ('"' :: '\x7d' :: '\x7d' :: '\n' :: t)))

/-! ### One-pass rewrite lemmas for the legacy spellings -/
/-- A comment-style legacy directive segment
(`<!-- word(x) -->` followed by a newline and further text). -/
def comSeg (w0 : Char) (w' x t : List Char) : List Char :=
  '<' :: '!' :: '-' :: '-' :: ' ' :: w0 ::
    (w' ++ ('(' :: (x ++ (')' :: ' ' :: '-' :: '-' :: '>' :: '\n' :: t))))

/-! ### C4: normalization is a no-op on canonical text -/
/-- Text written entirely in canonical syntax: no legacy rewrite pattern
matches anywhere in it (after the newline append the function performs
first). -/
def canonicalText (s : List Char) : Prop :=
  ∀ q ∈ [pComPart, pComInc, pQuotPart, pQuotInc, pQuotSeed, pWithTwo,
    pWithOne, pWithJoin, pJoin, pUpcase, pDotStrip], NoMatch q (s ++ ['\n'])

instance (s : List Char) : Decidable (canonicalText s) := by
  unfold canonicalText
  infer_instance

/-! ### C2: sibling seed precedence and merge shape -/
def srcC2 : List Char := cs "<!-- seed(a1.json) -->\n<!-- seed(b2.json) -->"

def fsC2 (sA sB : List Char) : FS :=
  [(cs "/d/a1.json", sA), (cs "/d/b2.json", sB)]

def sC2A : List Char := cs "\x7b\"x\":1,\"y\":1\x7d"

def sC2B : List Char := cs "\x7b\"x\":2,\"z\":2\x7d"

def jC2A : List (List Char × Json) := [(cs "x", .num 1), (cs "y", .num 1)]

def jC2B : List (List Char × Json) := [(cs "x", .num 2), (cs "z", .num 2)]

/-! ### C9: seed loading error taxonomy and propagation -/
def fsC9bad : FS := [(cs "/d/s.json", cs "not json")]

/-! ### C7: the dependency walk -/
def fsC7a : FS := [(cs "/r/root.txt", cs "no directives here")]

def fsC7b : FS :=
  [(cs "/r/root.txt", cs "\x7b\x7b> p.txt\x7d\x7d"),
   (cs "/r/p.txt", cs "<!-- seed(s.json) -->")]

def fsC7c : FS :=
  [(cs "/r/root.txt", cs "\x7b\x7b> p.txt\x7d\x7d\n\x7b\x7b> p.txt\x7d\x7d"),
   (cs "/r/p.txt", cs "x")]

/-! ### C1: the example scenario (root seed vs child seed) -/
def fsC1 : FS :=
  [(cs "/r/root.txt", cs "<!-- seed(a.json) -->\n\x7b\x7b> child.txt\x7d\x7d"),
   (cs "/r/a.json", cs "\x7b\"x\":1,\"y\":1\x7d"),
   (cs "/r/child.txt", cs "<!-- seed(b.json) -->Hello \x7b\x7bx\x7d\x7d"),
   (cs "/r/b.json", cs "\x7b\"x\":2,\"z\":2\x7d")]

/-! ### C3: one render per directive occurrence -/
def fsC3 : FS :=
  [(cs "/r/root.txt", cs "\x7b\x7b> p.txt\x7d\x7d\n\x7b\x7b> p.txt\x7d\x7d"),
   (cs "/r/p.txt", cs "hi")]

def fsC3b : FS :=
  [(cs "/r/root.txt", cs "\x7b\x7b> a.txt\x7d\x7d"),
   (cs "/r/a.txt", cs "A[\x7b\x7b> b.txt\x7d\x7d]"),
   (cs "/r/b.txt", cs "B")]

/-! ## Theorems -/

/-! ## Lemma infrastructure for the matcher -/
theorem litPref_append (l t : List Char) : litPref l (l ++ t) = some t := by
  induction l with
  | nil => rfl
  | cons c l ih => simp [litPref, ih]

theorem litPref_eq_some {l s t : List Char} (h : litPref l s = some t) :
    s = l ++ t := by
  induction l generalizing s with
  | nil =>
    simp only [litPref, Option.some.injEq] at h
    simp [h]
  | cons c l ih =>
    cases s with
    | nil => simp [litPref] at h
    | cons d s' =>
      by_cases hc : c = d
      · subst hc
        simp only [litPref, if_pos rfl] at h
        simpa using ih h
      · simp [litPref, hc] at h

theorem matchAt_lit_append (l : List Char) (rest : Pat) (t : List Char) :
    matchAt (.lit l :: rest) (l ++ t) = matchAt rest t := by
  simp [matchAt, isLineTerm, litPref_append]

theorem matchAt_lit_head_ne {c0 : Char} (l : List Char) (rest : Pat)
    {d : Char} (t : List Char) (h : c0 ≠ d) :
    matchAt (.lit (c0 :: l) :: rest) (d :: t) = none := by
  simp [matchAt, isLineTerm, litPref, h]

theorem matchAt_lit_nil (c0 : Char) (l : List Char) (rest : Pat) :
    matchAt (.lit (c0 :: l) :: rest) [] = none := by
  simp [matchAt, isLineTerm, litPref]

theorem NoMatch.head {p : Pat} {s : List Char} (h : NoMatch p s) :
    matchAt p s = none := by
  have := h 0
  simpa using this

theorem NoMatch.tail {p : Pat} {c : Char} {s : List Char}
    (h : NoMatch p (c :: s)) : NoMatch p s := fun n => h (n + 1)

theorem NoMatch_cons {p : Pat} {c : Char} {s : List Char}
    (h0 : matchAt p (c :: s) = none) (h1 : NoMatch p s) : NoMatch p (c :: s) := by
  intro n
  cases n with
  | zero => simpa using h0
  | succ m => simpa using h1 m

theorem noMatch_of_head_notin {p : Pat} {c0 : Char} {l : List Char} {rest : Pat}
    (hp : p = .lit (c0 :: l) :: rest) {s : List Char} (h : c0 ∉ s) :
    NoMatch p s := by
  intro n
  subst hp
  rcases hd : s.drop n with _ | ⟨d, t⟩
  · exact matchAt_lit_nil c0 l rest
  · have hdmem : d ∈ s := by
      have : d ∈ s.drop n := by rw [hd]; exact List.mem_cons_self d t
      exact List.drop_subset n s this
    exact matchAt_lit_head_ne l rest t (fun hc => h (hc ▸ hdmem))

theorem NoMatch_append {p : Pat} {c0 : Char} {l : List Char} {rest : Pat}
    (hp : p = .lit (c0 :: l) :: rest) {pre : List Char} (hpre : c0 ∉ pre)
    {t : List Char} (ht : NoMatch p t) : NoMatch p (pre ++ t) := by
  intro n
  rw [List.drop_append_eq_append_drop]
  by_cases hn : n < pre.length
  · rcases hd : pre.drop n with _ | ⟨d, u⟩
    · have := List.drop_eq_nil_iff.mp hd
      omega
    · have hdmem : d ∈ pre := by
        have : d ∈ pre.drop n := by rw [hd]; exact List.mem_cons_self d u
        exact List.drop_subset n pre this
      subst hp
      exact matchAt_lit_head_ne l rest (u ++ t.drop (n - pre.length))
        (fun hc => hpre (hc ▸ hdmem))
  · have : pre.drop n = [] := List.drop_eq_nil_of_le (by omega)
    rw [this, List.nil_append]
    exact ht _

/-! ### `replaceG` reasoning principles -/
theorem replaceGF_of_noMatch (p : Pat) (tmpl : List (List Char) → List Char) :
    ∀ fuel s, NoMatch p s → replaceGF p tmpl fuel s = s := by
  intro fuel
  induction fuel with
  | zero => intro s _; rfl
  | succ f ih =>
    intro s h
    cases s with
    | nil => simp [replaceGF, h.head]
    | cons c rest => simp [replaceGF, h.head, ih rest h.tail]

theorem replaceG_of_noMatch {p : Pat} {tmpl : List (List Char) → List Char}
    {s : List Char} (h : NoMatch p s) : replaceG p tmpl s = s :=
  replaceGF_of_noMatch p tmpl _ s h

theorem replaceGF_congr (p : Pat) (tmpl : List (List Char) → List Char) :
    ∀ fuel fuel' s, s.length < fuel → s.length < fuel' →
      replaceGF p tmpl fuel s = replaceGF p tmpl fuel' s := by
  intro fuel
  induction fuel with
  | zero => intro fuel' s h; omega
  | succ f ih =>
    intro fuel' s h h'
    cases fuel' with
    | zero => omega
    | succ f' =>
      cases s with
      | nil => rfl
      | cons c rest =>
        simp only [replaceGF]
        rcases hm : matchAt p (c :: rest) with _ | ⟨caps, r⟩
        · simp only [List.length_cons] at h h'
          rw [ih f' rest (by omega) (by omega)]
        · by_cases hr : r.length < rest.length + 1
          · simp only [if_pos hr]
            simp only [List.length_cons] at h h'
            rw [ih f' r (by omega) (by omega)]
          · simp only [if_neg hr]
            simp only [List.length_cons] at h h'
            rw [ih f' rest (by omega) (by omega)]

theorem replaceG_cons_of_none {p : Pat} {tmpl : List (List Char) → List Char}
    {c : Char} {s : List Char} (h : matchAt p (c :: s) = none) :
    replaceG p tmpl (c :: s) = c :: replaceG p tmpl s := by
  simp only [replaceG, List.length_cons, replaceGF, h]

theorem replaceG_match {p : Pat} {tmpl : List (List Char) → List Char}
    {s : List Char} {caps : List (List Char)} {r : List Char}
    (h : matchAt p s = some (caps, r)) (hr : r.length < s.length) :
    replaceG p tmpl s = tmpl caps ++ replaceG p tmpl r := by
  cases s with
  | nil => simp at hr
  | cons c rest =>
    simp only [replaceG, List.length_cons, replaceGF, h]
    simp only [List.length_cons] at hr
    simp only [if_pos hr]
    rw [replaceGF_congr p tmpl (rest.length + 1) (r.length + 1) r (by omega) (by omega)]

theorem replaceG_prefix_skip {p : Pat} {c0 : Char} {l : List Char} {rest : Pat}
    (hp : p = .lit (c0 :: l) :: rest) (tmpl : List (List Char) → List Char)
    {pre : List Char} (hpre : c0 ∉ pre) (t : List Char) :
    replaceG p tmpl (pre ++ t) = pre ++ replaceG p tmpl t := by
  induction pre with
  | nil => rfl
  | cons d pre' ih =>
    have hne : c0 ≠ d := fun hc => hpre (hc ▸ List.mem_cons_self d pre')
    have h0 : matchAt p (d :: (pre' ++ t)) = none := by
      subst hp; exact matchAt_lit_head_ne l rest _ hne
    rw [List.cons_append, replaceG_cons_of_none h0,
      ih (fun hm => hpre (List.mem_cons_of_mem d hm))]
    rfl

/-! ### Greedy-group evaluation lemmas -/
theorem takeWhile_append_all {p : Char → Bool} {x : List Char}
    (hx : ∀ c ∈ x, p c = true) (t : List Char) :
    (x ++ t).takeWhile p = x ++ t.takeWhile p := by
  induction x with
  | nil => rfl
  | cons c x ih =>
    have hc : p c = true := hx c (List.mem_cons_self c x)
    simp only [List.cons_append, List.takeWhile_cons, hc, if_true]
    rw [ih (fun d hd => hx d (List.mem_cons_of_mem c hd))]

theorem firstSome_prefixesDesc_skip {β : Type}
    (G : List Char × List Char → Option β) (s : List Char) (n m : Nat)
    (h : ∀ k, n < k → k ≤ n + m → G (s.take k, s.drop k) = none) :
    firstSome G (prefixesDesc s (n + m)) = firstSome G (prefixesDesc s n) := by
  induction m with
  | zero => rfl
  | succ m ih =>
    show firstSome G (prefixesDesc s ((n + m) + 1)) = _
    simp only [prefixesDesc, firstSome, h (n + m + 1) (by omega) (by omega)]
    exact ih (fun k hk1 hk2 => h k hk1 (by omega))

/-- Evaluate a greedy group followed by the closing items of the pattern:
if the closing items match exactly the concrete closer `mid` (leaving
`'\n' :: t`), and fail at every position strictly inside `mid`, then the
greedy group captures exactly `g`. -/
theorem matchAt_grp_exact (restItems : Pat) (g mid t : List Char)
    (caps' : List (List Char))
    (hg : g ≠ []) (hgnl : ∀ c ∈ g, isLineTerm c = false)
    (hmnl : ∀ c ∈ mid, isLineTerm c = false)
    (hok : matchAt restItems (mid ++ '\n' :: t) = some (caps', '\n' :: t))
    (hfail : ∀ j, 1 ≤ j → j ≤ mid.length →
      matchAt restItems ((mid ++ '\n' :: t).drop j) = none) :
    matchAt (.grp :: restItems) (g ++ (mid ++ '\n' :: t)) =
      some (g :: caps', '\n' :: t) := by
  have hgb : ∀ c ∈ g, (fun c => !isLineTerm c) c = true := by
    intro c hc
    simp [hgnl c hc]
  have hmb : ∀ c ∈ mid, (fun c => !isLineTerm c) c = true := by
    intro c hc
    simp [hmnl c hc]
  have htw : ((g ++ (mid ++ '\n' :: t)).takeWhile (fun c => !isLineTerm c)).length
      = g.length + mid.length := by
    rw [takeWhile_append_all hgb, takeWhile_append_all hmb]
    simp +decide [List.takeWhile_cons, isLineTerm]
  simp only [matchAt, htw]
  rw [firstSome_prefixesDesc_skip _ _ g.length mid.length (by
    intro k hk1 hk2
    have hd : (g ++ (mid ++ '\n' :: t)).drop k = (mid ++ '\n' :: t).drop (k - g.length) := by
      rw [List.drop_append_eq_append_drop, List.drop_eq_nil_of_le (by omega),
        List.nil_append]
    rw [hd, hfail (k - g.length) (by omega) (by omega)]
    rfl)]
  rcases g with _ | ⟨c0, g'⟩
  · exact absurd rfl hg
  · have hlen : g'.length + 1 = (c0 :: g').length := rfl
    simp only [prefixesDesc, firstSome]
    rw [hlen, List.take_left, List.drop_left, hok]
    rfl

theorem notin_of_refChars {x : List Char} (hx : ∀ c ∈ x, c ∈ refChars)
    {d : Char} (hd : d ∉ refChars) : d ∉ x :=
  fun hm => hd (hx d hm)

/-- Reference strings contain no JS line terminator. -/
theorem refChars_lineTerm_free {x : List Char} (hx : ∀ c ∈ x, c ∈ refChars) :
    ∀ c ∈ x, isLineTerm c = false :=
  fun c hc => (by decide : ∀ c ∈ refChars, isLineTerm c = false) c (hx c hc)

theorem matchAt_wsOpt_skip {c : Char} (rest : Pat) (s : List Char)
    (h : isWsChar c = false) :
    matchAt (.wsOpt :: rest) (c :: s) = matchAt rest (c :: s) := by
  simp [matchAt, h]

/-- A head character occurring only at position 0 reduces `NoMatch` to
the single position-0 check. -/
theorem NoMatch_single_head {q : Pat} {c0 : Char} {l : List Char} {rest : Pat}
    (hq : q = .lit (c0 :: l) :: rest) {S' : List Char}
    (h0 : matchAt q (c0 :: S') = none) (hno : c0 ∉ S') :
    NoMatch q (c0 :: S') :=
  NoMatch_cons h0 (noMatch_of_head_notin hq hno)

theorem canonSeg_eq (x t : List Char) :
    cs "\x7b\x7b> " ++ x ++ cs "\x7d\x7d" ++ '\n' :: t = canonSeg x t := by
  simp [canonSeg, cs]

/-- None of the remaining rewrite patterns can match anywhere in a
canonical partial-reference segment. -/
theorem NoMatch_canonSeg {q : Pat} {c0 : Char} {l : List Char} {rest : Pat}
    (hq : q = .lit (c0 :: l) :: rest)
    (h0 : ∀ r : List Char, matchAt q ('\x7b' :: '\x7b' :: '>' :: r) = none)
    (h1 : ∀ r : List Char, matchAt q ('\x7b' :: '>' :: r) = none)
    (hgt : c0 ≠ '>') (hsp : c0 ≠ ' ') (hrb : c0 ≠ '\x7d') (hnl : c0 ≠ '\n')
    (hc0 : c0 ∉ refChars)
    {x : List Char} (hx : ∀ c ∈ x, c ∈ refChars)
    {t : List Char} (ht : NoMatch q t) :
    NoMatch q (canonSeg x t) := by
  unfold canonSeg
  refine NoMatch_cons (h0 _) (NoMatch_cons (h1 _) (NoMatch_cons ?_ (NoMatch_cons ?_ ?_)))
  · subst hq; exact matchAt_lit_head_ne _ _ _ hgt
  · subst hq; exact matchAt_lit_head_ne _ _ _ hsp
  · refine NoMatch_append hq (notin_of_refChars hx hc0) ?_
    refine NoMatch_cons ?_ (NoMatch_cons ?_ (NoMatch_cons ?_ ht))
    · subst hq; exact matchAt_lit_head_ne _ _ _ hrb
    · subst hq; exact matchAt_lit_head_ne _ _ _ hrb
    · subst hq; exact matchAt_lit_head_ne _ _ _ hnl

/-- No-match of a pattern over a quoted-helper directive segment. -/
theorem NoMatch_quotSeg {q : Pat} {c0 : Char} {l : List Char} {rest : Pat}
    (hq : q = .lit (c0 :: l) :: rest) {w0 : Char} {w' : List Char}
    (h0 : ∀ r : List Char, matchAt q ('\x7b' :: '\x7b' :: w0 :: r) = none)
    (h1 : ∀ r : List Char, matchAt q ('\x7b' :: w0 :: r) = none)
    (hw0 : c0 ≠ w0) (hw : c0 ∉ w') (hqt : c0 ≠ '"') (hrb : c0 ≠ '\x7d')
    (hnl : c0 ≠ '\n') (hc0 : c0 ∉ refChars)
    {x : List Char} (hx : ∀ c ∈ x, c ∈ refChars)
    {t : List Char} (ht : NoMatch q t) :
    NoMatch q (quotSeg w0 w' x t) := by
  unfold quotSeg
  refine NoMatch_cons (h0 _) (NoMatch_cons (h1 _) (NoMatch_cons ?_ ?_))
  · subst hq; exact matchAt_lit_head_ne _ _ _ hw0
  · refine NoMatch_append hq hw ?_
    refine NoMatch_append hq (notin_of_refChars hx hc0) ?_
    refine NoMatch_cons ?_ (NoMatch_cons ?_ (NoMatch_cons ?_ (NoMatch_cons ?_ ht)))
    · subst hq; exact matchAt_lit_head_ne _ _ _ hqt
    · subst hq; exact matchAt_lit_head_ne _ _ _ hrb
    · subst hq; exact matchAt_lit_head_ne _ _ _ hrb
    · subst hq; exact matchAt_lit_head_ne _ _ _ hnl

theorem comSeg_part_eq (x t : List Char) :
    comSeg 'p' (cs "artial") x t =
      cs "<!-- partial(" ++ (x ++ (cs ") -->" ++ '\n' :: t)) := rfl

theorem comSeg_inc_eq (x t : List Char) :
    comSeg 'i' (cs "nclude") x t =
      cs "<!-- include(" ++ (x ++ (cs ") -->" ++ '\n' :: t)) := rfl

theorem quotSeg_part_eq (x t : List Char) :
    quotSeg 'p' (cs "artial \"") x t =
      cs "\x7b\x7bpartial \"" ++ (x ++ (cs "\"\x7d\x7d" ++ '\n' :: t)) := rfl

theorem quotSeg_inc_eq (x t : List Char) :
    quotSeg 'i' (cs "nclude \"") x t =
      cs "\x7b\x7binclude \"" ++ (x ++ (cs "\"\x7d\x7d" ++ '\n' :: t)) := rfl

theorem matchAt_comPart (x t : List Char) (hne : x ≠ [])
    (hx : ∀ c ∈ x, c ∈ refChars) :
    matchAt pComPart (cs "<!-- partial(" ++ (x ++ (cs ") -->" ++ '\n' :: t))) =
      some ([x], '\n' :: t) := by
  show matchAt (.lit (cs "<!-- partial(") :: [RItem.grp, .lit (cs ") -->")]) _ = _
  rw [matchAt_lit_append]
  exact matchAt_grp_exact [RItem.lit (cs ") -->")] x (cs ") -->") t []
    hne (refChars_lineTerm_free hx) (by decide)
    (by rw [matchAt_lit_append]; rfl)
    (by intro j h1 h2
        simp only [cs, List.length_cons, List.length_nil] at h2
        interval_cases j <;>
          simp +decide [cs, matchAt, isLineTerm, litPref, List.drop_succ_cons])

theorem matchAt_comInc (x t : List Char) (hne : x ≠ [])
    (hx : ∀ c ∈ x, c ∈ refChars) :
    matchAt pComInc (cs "<!-- include(" ++ (x ++ (cs ") -->" ++ '\n' :: t))) =
      some ([x], '\n' :: t) := by
  show matchAt (.lit (cs "<!-- include(") :: [RItem.grp, .lit (cs ") -->")]) _ = _
  rw [matchAt_lit_append]
  exact matchAt_grp_exact [RItem.lit (cs ") -->")] x (cs ") -->") t []
    hne (refChars_lineTerm_free hx) (by decide)
    (by rw [matchAt_lit_append]; rfl)
    (by intro j h1 h2
        simp only [cs, List.length_cons, List.length_nil] at h2
        interval_cases j <;>
          simp +decide [cs, matchAt, isLineTerm, litPref, List.drop_succ_cons])

theorem matchAt_quotPart (x t : List Char) (hne : x ≠ [])
    (hx : ∀ c ∈ x, c ∈ refChars) :
    matchAt pQuotPart (cs "\x7b\x7bpartial \"" ++ (x ++ (cs "\"\x7d\x7d" ++ '\n' :: t))) =
      some ([x], '\n' :: t) := by
  have hstep : matchAt pQuotPart
      (cs "\x7b\x7bpartial \"" ++ (x ++ (cs "\"\x7d\x7d" ++ '\n' :: t))) =
      matchAt [RItem.grp, .lit (cs "\""), .wsOpt, .lit (cs "\x7d\x7d")]
        (x ++ (cs "\"\x7d\x7d" ++ '\n' :: t)) := by
    show matchAt (.lit (cs "\x7b\x7b") ::
        [RItem.wsOpt, .lit (cs "partial \""), .grp, .lit (cs "\""), .wsOpt,
         .lit (cs "\x7d\x7d")])
      (cs "\x7b\x7b" ++ ('p' :: (cs "artial \"" ++ (x ++ (cs "\"\x7d\x7d" ++ '\n' :: t))))) = _
    rw [matchAt_lit_append, matchAt_wsOpt_skip _ _ (by decide)]
    show matchAt (.lit (cs "partial \"") ::
        [RItem.grp, .lit (cs "\""), .wsOpt, .lit (cs "\x7d\x7d")])
      (cs "partial \"" ++ (x ++ (cs "\"\x7d\x7d" ++ '\n' :: t))) = _
    rw [matchAt_lit_append]
  rw [hstep]
  exact matchAt_grp_exact [RItem.lit (cs "\""), .wsOpt, .lit (cs "\x7d\x7d")]
    x (cs "\"\x7d\x7d") t []
    hne (refChars_lineTerm_free hx) (by decide)
    (by simp +decide [cs, matchAt, isLineTerm, litPref, isWsChar])
    (by intro j h1 h2
        simp only [cs, List.length_cons, List.length_nil] at h2
        interval_cases j <;>
          simp +decide [cs, matchAt, isLineTerm, litPref, isWsChar, List.drop_succ_cons])

theorem matchAt_quotInc (x t : List Char) (hne : x ≠ [])
    (hx : ∀ c ∈ x, c ∈ refChars) :
    matchAt pQuotInc (cs "\x7b\x7binclude \"" ++ (x ++ (cs "\"\x7d\x7d" ++ '\n' :: t))) =
      some ([x], '\n' :: t) := by
  have hstep : matchAt pQuotInc
      (cs "\x7b\x7binclude \"" ++ (x ++ (cs "\"\x7d\x7d" ++ '\n' :: t))) =
      matchAt [RItem.grp, .lit (cs "\""), .wsOpt, .lit (cs "\x7d\x7d")]
        (x ++ (cs "\"\x7d\x7d" ++ '\n' :: t)) := by
    show matchAt (.lit (cs "\x7b\x7b") ::
        [RItem.wsOpt, .lit (cs "include \""), .grp, .lit (cs "\""), .wsOpt,
         .lit (cs "\x7d\x7d")])
      (cs "\x7b\x7b" ++ ('i' :: (cs "nclude \"" ++ (x ++ (cs "\"\x7d\x7d" ++ '\n' :: t))))) = _
    rw [matchAt_lit_append, matchAt_wsOpt_skip _ _ (by decide)]
    show matchAt (.lit (cs "include \"") ::
        [RItem.grp, .lit (cs "\""), .wsOpt, .lit (cs "\x7d\x7d")])
      (cs "include \"" ++ (x ++ (cs "\"\x7d\x7d" ++ '\n' :: t))) = _
    rw [matchAt_lit_append]
  rw [hstep]
  exact matchAt_grp_exact [RItem.lit (cs "\""), .wsOpt, .lit (cs "\x7d\x7d")]
    x (cs "\"\x7d\x7d") t []
    hne (refChars_lineTerm_free hx) (by decide)
    (by simp +decide [cs, matchAt, isLineTerm, litPref, isWsChar])
    (by intro j h1 h2
        simp only [cs, List.length_cons, List.length_nil] at h2
        interval_cases j <;>
          simp +decide [cs, matchAt, isLineTerm, litPref, isWsChar, List.drop_succ_cons])

theorem replaceG_comPart (x t : List Char) (hne : x ≠ [])
    (hx : ∀ c ∈ x, c ∈ refChars) :
    replaceG pComPart tmplPartialRef
        (cs "<!-- partial(" ++ (x ++ (cs ") -->" ++ '\n' :: t))) =
      cs "\x7b\x7b> " ++ (x ++ (cs "\x7d\x7d" ++
        replaceG pComPart tmplPartialRef ('\n' :: t))) := by
  have hr : ('\n' :: t).length <
      (cs "<!-- partial(" ++ (x ++ (cs ") -->" ++ '\n' :: t))).length := by
    simp [cs]
    omega
  rw [replaceG_match (matchAt_comPart x t hne hx) hr]
  simp [tmplPartialRef, cap, List.append_assoc]

theorem replaceG_comInc (x t : List Char) (hne : x ≠ [])
    (hx : ∀ c ∈ x, c ∈ refChars) :
    replaceG pComInc tmplPartialRef
        (cs "<!-- include(" ++ (x ++ (cs ") -->" ++ '\n' :: t))) =
      cs "\x7b\x7b> " ++ (x ++ (cs "\x7d\x7d" ++
        replaceG pComInc tmplPartialRef ('\n' :: t))) := by
  have hr : ('\n' :: t).length <
      (cs "<!-- include(" ++ (x ++ (cs ") -->" ++ '\n' :: t))).length := by
    simp [cs]
    omega
  rw [replaceG_match (matchAt_comInc x t hne hx) hr]
  simp [tmplPartialRef, cap, List.append_assoc]

theorem replaceG_quotPart (x t : List Char) (hne : x ≠ [])
    (hx : ∀ c ∈ x, c ∈ refChars) :
    replaceG pQuotPart tmplPartialRef
        (cs "\x7b\x7bpartial \"" ++ (x ++ (cs "\"\x7d\x7d" ++ '\n' :: t))) =
      cs "\x7b\x7b> " ++ (x ++ (cs "\x7d\x7d" ++
        replaceG pQuotPart tmplPartialRef ('\n' :: t))) := by
  have hr : ('\n' :: t).length <
      (cs "\x7b\x7bpartial \"" ++ (x ++ (cs "\"\x7d\x7d" ++ '\n' :: t))).length := by
    simp [cs]
    omega
  rw [replaceG_match (matchAt_quotPart x t hne hx) hr]
  simp [tmplPartialRef, cap, List.append_assoc]

theorem replaceG_quotInc (x t : List Char) (hne : x ≠ [])
    (hx : ∀ c ∈ x, c ∈ refChars) :
    replaceG pQuotInc tmplPartialRef
        (cs "\x7b\x7binclude \"" ++ (x ++ (cs "\"\x7d\x7d" ++ '\n' :: t))) =
      cs "\x7b\x7b> " ++ (x ++ (cs "\x7d\x7d" ++
        replaceG pQuotInc tmplPartialRef ('\n' :: t))) := by
  have hr : ('\n' :: t).length <
      (cs "\x7b\x7binclude \"" ++ (x ++ (cs "\"\x7d\x7d" ++ '\n' :: t))).length := by
    simp [cs]
    omega
  rw [replaceG_match (matchAt_quotInc x t hne hx) hr]
  simp [tmplPartialRef, cap, List.append_assoc]

/-! ### No-match instances on canonical segments -/
theorem ncs_pComPart (x t : List Char) (hx : ∀ c ∈ x, c ∈ refChars)
    (ht : NoMatch pComPart t) : NoMatch pComPart (canonSeg x t) :=
  NoMatch_canonSeg rfl
    (fun r => by simp +decide [pComPart, matchAt, isLineTerm, litPref, isWsChar, cs])
    (fun r => by simp +decide [pComPart, matchAt, isLineTerm, litPref, isWsChar, cs])
    (by decide) (by decide) (by decide) (by decide) (by decide) hx ht

theorem ncs_pComInc (x t : List Char) (hx : ∀ c ∈ x, c ∈ refChars)
    (ht : NoMatch pComInc t) : NoMatch pComInc (canonSeg x t) :=
  NoMatch_canonSeg rfl
    (fun r => by simp +decide [pComInc, matchAt, isLineTerm, litPref, isWsChar, cs])
    (fun r => by simp +decide [pComInc, matchAt, isLineTerm, litPref, isWsChar, cs])
    (by decide) (by decide) (by decide) (by decide) (by decide) hx ht

theorem ncs_pQuotPart (x t : List Char) (hx : ∀ c ∈ x, c ∈ refChars)
    (ht : NoMatch pQuotPart t) : NoMatch pQuotPart (canonSeg x t) :=
  NoMatch_canonSeg rfl
    (fun r => by simp +decide [pQuotPart, matchAt, isLineTerm, litPref, isWsChar, cs])
    (fun r => by simp +decide [pQuotPart, matchAt, isLineTerm, litPref, isWsChar, cs])
    (by decide) (by decide) (by decide) (by decide) (by decide) hx ht

theorem ncs_pQuotInc (x t : List Char) (hx : ∀ c ∈ x, c ∈ refChars)
    (ht : NoMatch pQuotInc t) : NoMatch pQuotInc (canonSeg x t) :=
  NoMatch_canonSeg rfl
    (fun r => by simp +decide [pQuotInc, matchAt, isLineTerm, litPref, isWsChar, cs])
    (fun r => by simp +decide [pQuotInc, matchAt, isLineTerm, litPref, isWsChar, cs])
    (by decide) (by decide) (by decide) (by decide) (by decide) hx ht

theorem ncs_pQuotSeed (x t : List Char) (hx : ∀ c ∈ x, c ∈ refChars)
    (ht : NoMatch pQuotSeed t) : NoMatch pQuotSeed (canonSeg x t) :=
  NoMatch_canonSeg rfl
    (fun r => by simp +decide [pQuotSeed, matchAt, isLineTerm, litPref, isWsChar, cs])
    (fun r => by simp +decide [pQuotSeed, matchAt, isLineTerm, litPref, isWsChar, cs])
    (by decide) (by decide) (by decide) (by decide) (by decide) hx ht

theorem ncs_pWithTwo (x t : List Char) (hx : ∀ c ∈ x, c ∈ refChars)
    (ht : NoMatch pWithTwo t) : NoMatch pWithTwo (canonSeg x t) :=
  NoMatch_canonSeg rfl
    (fun r => by simp +decide [pWithTwo, matchAt, isLineTerm, litPref, isWsChar, cs])
    (fun r => by simp +decide [pWithTwo, matchAt, isLineTerm, litPref, isWsChar, cs])
    (by decide) (by decide) (by decide) (by decide) (by decide) hx ht

theorem ncs_pWithOne (x t : List Char) (hx : ∀ c ∈ x, c ∈ refChars)
    (ht : NoMatch pWithOne t) : NoMatch pWithOne (canonSeg x t) :=
  NoMatch_canonSeg rfl
    (fun r => by simp +decide [pWithOne, matchAt, isLineTerm, litPref, isWsChar, cs])
    (fun r => by simp +decide [pWithOne, matchAt, isLineTerm, litPref, isWsChar, cs])
    (by decide) (by decide) (by decide) (by decide) (by decide) hx ht

theorem ncs_pWithJoin (x t : List Char) (hx : ∀ c ∈ x, c ∈ refChars)
    (ht : NoMatch pWithJoin t) : NoMatch pWithJoin (canonSeg x t) :=
  NoMatch_canonSeg rfl
    (fun r => by simp +decide [pWithJoin, matchAt, isLineTerm, litPref, isWsChar, cs])
    (fun r => by simp +decide [pWithJoin, matchAt, isLineTerm, litPref, isWsChar, cs])
    (by decide) (by decide) (by decide) (by decide) (by decide) hx ht

theorem ncs_pJoin (x t : List Char) (hx : ∀ c ∈ x, c ∈ refChars)
    (ht : NoMatch pJoin t) : NoMatch pJoin (canonSeg x t) :=
  NoMatch_canonSeg rfl
    (fun r => by simp +decide [pJoin, matchAt, isLineTerm, litPref, isWsChar, cs])
    (fun r => by simp +decide [pJoin, matchAt, isLineTerm, litPref, isWsChar, cs])
    (by decide) (by decide) (by decide) (by decide) (by decide) hx ht

theorem ncs_pUpcase (x t : List Char) (hx : ∀ c ∈ x, c ∈ refChars)
    (ht : NoMatch pUpcase t) : NoMatch pUpcase (canonSeg x t) :=
  NoMatch_canonSeg rfl
    (fun r => by simp +decide [pUpcase, matchAt, isLineTerm, litPref, isWsChar, cs])
    (fun r => by simp +decide [pUpcase, matchAt, isLineTerm, litPref, isWsChar, cs])
    (by decide) (by decide) (by decide) (by decide) (by decide) hx ht

theorem ncs_pDotStrip (x t : List Char) (hx : ∀ c ∈ x, c ∈ refChars)
    (ht : NoMatch pDotStrip t) : NoMatch pDotStrip (canonSeg x t) :=
  NoMatch_canonSeg rfl
    (fun r => by simp +decide [pDotStrip, matchAt, isLineTerm, litPref, isWsChar, cs])
    (fun r => by simp +decide [pDotStrip, matchAt, isLineTerm, litPref, isWsChar, cs])
    (by decide) (by decide) (by decide) (by decide) (by decide) hx ht

/-! ### No-match instances on legacy-input segments -/
theorem nqsP_pComPart (x t : List Char) (hx : ∀ c ∈ x, c ∈ refChars)
    (ht : NoMatch pComPart t) :
    NoMatch pComPart (quotSeg 'p' (cs "artial \"") x t) :=
  NoMatch_quotSeg rfl
    (fun r => by simp +decide [pComPart, matchAt, isLineTerm, litPref, isWsChar, cs])
    (fun r => by simp +decide [pComPart, matchAt, isLineTerm, litPref, isWsChar, cs])
    (by decide) (by decide) (by decide) (by decide) (by decide) (by decide) hx ht

theorem nqsP_pComInc (x t : List Char) (hx : ∀ c ∈ x, c ∈ refChars)
    (ht : NoMatch pComInc t) :
    NoMatch pComInc (quotSeg 'p' (cs "artial \"") x t) :=
  NoMatch_quotSeg rfl
    (fun r => by simp +decide [pComInc, matchAt, isLineTerm, litPref, isWsChar, cs])
    (fun r => by simp +decide [pComInc, matchAt, isLineTerm, litPref, isWsChar, cs])
    (by decide) (by decide) (by decide) (by decide) (by decide) (by decide) hx ht

theorem nqsI_pComPart (x t : List Char) (hx : ∀ c ∈ x, c ∈ refChars)
    (ht : NoMatch pComPart t) :
    NoMatch pComPart (quotSeg 'i' (cs "nclude \"") x t) :=
  NoMatch_quotSeg rfl
    (fun r => by simp +decide [pComPart, matchAt, isLineTerm, litPref, isWsChar, cs])
    (fun r => by simp +decide [pComPart, matchAt, isLineTerm, litPref, isWsChar, cs])
    (by decide) (by decide) (by decide) (by decide) (by decide) (by decide) hx ht

theorem nqsI_pComInc (x t : List Char) (hx : ∀ c ∈ x, c ∈ refChars)
    (ht : NoMatch pComInc t) :
    NoMatch pComInc (quotSeg 'i' (cs "nclude \"") x t) :=
  NoMatch_quotSeg rfl
    (fun r => by simp +decide [pComInc, matchAt, isLineTerm, litPref, isWsChar, cs])
    (fun r => by simp +decide [pComInc, matchAt, isLineTerm, litPref, isWsChar, cs])
    (by decide) (by decide) (by decide) (by decide) (by decide) (by decide) hx ht

theorem nqsI_pQuotPart (x t : List Char) (hx : ∀ c ∈ x, c ∈ refChars)
    (ht : NoMatch pQuotPart t) :
    NoMatch pQuotPart (quotSeg 'i' (cs "nclude \"") x t) :=
  NoMatch_quotSeg rfl
    (fun r => by simp +decide [pQuotPart, matchAt, isLineTerm, litPref, isWsChar, cs])
    (fun r => by simp +decide [pQuotPart, matchAt, isLineTerm, litPref, isWsChar, cs])
    (by decide) (by decide) (by decide) (by decide) (by decide) (by decide) hx ht

/-- No-match of a pattern over a comment-style directive segment. -/
theorem NoMatch_comSeg {q : Pat} {c0 : Char} {l : List Char} {rest : Pat}
    (hq : q = .lit (c0 :: l) :: rest) {w0 : Char} {w' : List Char}
    (h0 : ∀ r : List Char, matchAt q ('<' :: '!' :: '-' :: '-' :: ' ' :: w0 :: r) = none)
    (hex : c0 ≠ '!') (hdash : c0 ≠ '-') (hsp : c0 ≠ ' ') (hw0 : c0 ≠ w0)
    (hw : c0 ∉ w') (hop : c0 ≠ '(') (hcl : c0 ≠ ')') (hgt : c0 ≠ '>')
    (hnl : c0 ≠ '\n') (hc0 : c0 ∉ refChars)
    {x : List Char} (hx : ∀ c ∈ x, c ∈ refChars)
    {t : List Char} (ht : NoMatch q t) :
    NoMatch q (comSeg w0 w' x t) := by
  unfold comSeg
  refine NoMatch_cons (h0 _) ?_
  refine NoMatch_cons (by subst hq; exact matchAt_lit_head_ne _ _ _ hex) ?_
  refine NoMatch_cons (by subst hq; exact matchAt_lit_head_ne _ _ _ hdash) ?_
  refine NoMatch_cons (by subst hq; exact matchAt_lit_head_ne _ _ _ hdash) ?_
  refine NoMatch_cons (by subst hq; exact matchAt_lit_head_ne _ _ _ hsp) ?_
  refine NoMatch_cons (by subst hq; exact matchAt_lit_head_ne _ _ _ hw0) ?_
  refine NoMatch_append hq hw ?_
  refine NoMatch_cons (by subst hq; exact matchAt_lit_head_ne _ _ _ hop) ?_
  refine NoMatch_append hq (notin_of_refChars hx hc0) ?_
  refine NoMatch_cons (by subst hq; exact matchAt_lit_head_ne _ _ _ hcl) ?_
  refine NoMatch_cons (by subst hq; exact matchAt_lit_head_ne _ _ _ hsp) ?_
  refine NoMatch_cons (by subst hq; exact matchAt_lit_head_ne _ _ _ hdash) ?_
  refine NoMatch_cons (by subst hq; exact matchAt_lit_head_ne _ _ _ hdash) ?_
  refine NoMatch_cons (by subst hq; exact matchAt_lit_head_ne _ _ _ hgt) ?_
  exact NoMatch_cons (by subst hq; exact matchAt_lit_head_ne _ _ _ hnl) ht

theorem nisI_pComPart (x t : List Char) (hx : ∀ c ∈ x, c ∈ refChars)
    (ht : NoMatch pComPart t) :
    NoMatch pComPart (comSeg 'i' (cs "nclude") x t) :=
  NoMatch_comSeg rfl
    (fun r => by simp +decide [pComPart, matchAt, isLineTerm, litPref, isWsChar, cs])
    (by decide) (by decide) (by decide) (by decide) (by decide) (by decide)
    (by decide) (by decide) (by decide) (by decide) hx ht

/-! ### Full normalization of a single directive, per spelling -/
theorem rewriteSource_eq (source : List Char) :
    rewriteSource source =
      replaceG pDotStrip tmplBraces
        (replaceG pUpcase tmplUpcase
          (replaceG pJoin tmplJoin
            (replaceG pWithJoin tmplDots3
              (replaceG pWithOne tmplDots3
                (replaceG pWithTwo tmplDots5
                  (replaceG pQuotSeed tmplSeedComment
                    (replaceG pQuotInc tmplPartialRef
                      (replaceG pQuotPart tmplPartialRef
                        (replaceG pComInc tmplPartialRef
                          (replaceG pComPart tmplPartialRef
                            (source ++ ['\n']))))))))))) := rfl

theorem rewriteSource_canonical (x : List Char) (hx : ∀ c ∈ x, c ∈ refChars) :
    rewriteSource (cs "\x7b\x7b> " ++ x ++ cs "\x7d\x7d") = canonSeg x [] := by
  rw [rewriteSource_eq]
  have hshape : (cs "\x7b\x7b> " ++ x ++ cs "\x7d\x7d") ++ ['\n'] = canonSeg x [] := by
    rw [← canonSeg_eq]
  rw [hshape,
    replaceG_of_noMatch (ncs_pComPart x [] hx (by decide)),
    replaceG_of_noMatch (ncs_pComInc x [] hx (by decide)),
    replaceG_of_noMatch (ncs_pQuotPart x [] hx (by decide)),
    replaceG_of_noMatch (ncs_pQuotInc x [] hx (by decide)),
    replaceG_of_noMatch (ncs_pQuotSeed x [] hx (by decide)),
    replaceG_of_noMatch (ncs_pWithTwo x [] hx (by decide)),
    replaceG_of_noMatch (ncs_pWithOne x [] hx (by decide)),
    replaceG_of_noMatch (ncs_pWithJoin x [] hx (by decide)),
    replaceG_of_noMatch (ncs_pJoin x [] hx (by decide)),
    replaceG_of_noMatch (ncs_pUpcase x [] hx (by decide)),
    replaceG_of_noMatch (ncs_pDotStrip x [] hx (by decide))]

theorem rewriteSource_comPart (x : List Char) (hne : x ≠ [])
    (hx : ∀ c ∈ x, c ∈ refChars) :
    rewriteSource (cs "<!-- partial(" ++ x ++ cs ") -->") = canonSeg x [] := by
  rw [rewriteSource_eq]
  have hshape : (cs "<!-- partial(" ++ x ++ cs ") -->") ++ ['\n'] =
      cs "<!-- partial(" ++ (x ++ (cs ") -->" ++ '\n' :: ([] : List Char))) := by
    simp [List.append_assoc]
  rw [hshape, replaceG_comPart x [] hne hx,
    replaceG_of_noMatch (show NoMatch pComPart ['\n'] by decide)]
  have hcan : cs "\x7b\x7b> " ++ (x ++ (cs "\x7d\x7d" ++ '\n' :: ([] : List Char))) =
      canonSeg x [] := rfl
  rw [hcan,
    replaceG_of_noMatch (ncs_pComInc x [] hx (by decide)),
    replaceG_of_noMatch (ncs_pQuotPart x [] hx (by decide)),
    replaceG_of_noMatch (ncs_pQuotInc x [] hx (by decide)),
    replaceG_of_noMatch (ncs_pQuotSeed x [] hx (by decide)),
    replaceG_of_noMatch (ncs_pWithTwo x [] hx (by decide)),
    replaceG_of_noMatch (ncs_pWithOne x [] hx (by decide)),
    replaceG_of_noMatch (ncs_pWithJoin x [] hx (by decide)),
    replaceG_of_noMatch (ncs_pJoin x [] hx (by decide)),
    replaceG_of_noMatch (ncs_pUpcase x [] hx (by decide)),
    replaceG_of_noMatch (ncs_pDotStrip x [] hx (by decide))]

theorem rewriteSource_comInc (x : List Char) (hne : x ≠ [])
    (hx : ∀ c ∈ x, c ∈ refChars) :
    rewriteSource (cs "<!-- include(" ++ x ++ cs ") -->") = canonSeg x [] := by
  rw [rewriteSource_eq]
  have hshape : (cs "<!-- include(" ++ x ++ cs ") -->") ++ ['\n'] =
      comSeg 'i' (cs "nclude") x [] := by
    rw [comSeg_inc_eq]
    simp [List.append_assoc]
  rw [hshape,
    replaceG_of_noMatch (nisI_pComPart x [] hx (by decide)),
    comSeg_inc_eq, replaceG_comInc x [] hne hx,
    replaceG_of_noMatch (show NoMatch pComInc ['\n'] by decide)]
  have hcan : cs "\x7b\x7b> " ++ (x ++ (cs "\x7d\x7d" ++ '\n' :: ([] : List Char))) =
      canonSeg x [] := rfl
  rw [hcan,
    replaceG_of_noMatch (ncs_pQuotPart x [] hx (by decide)),
    replaceG_of_noMatch (ncs_pQuotInc x [] hx (by decide)),
    replaceG_of_noMatch (ncs_pQuotSeed x [] hx (by decide)),
    replaceG_of_noMatch (ncs_pWithTwo x [] hx (by decide)),
    replaceG_of_noMatch (ncs_pWithOne x [] hx (by decide)),
    replaceG_of_noMatch (ncs_pWithJoin x [] hx (by decide)),
    replaceG_of_noMatch (ncs_pJoin x [] hx (by decide)),
    replaceG_of_noMatch (ncs_pUpcase x [] hx (by decide)),
    replaceG_of_noMatch (ncs_pDotStrip x [] hx (by decide))]

theorem rewriteSource_quotPart (x : List Char) (hne : x ≠ [])
    (hx : ∀ c ∈ x, c ∈ refChars) :
    rewriteSource (cs "\x7b\x7bpartial \"" ++ x ++ cs "\"\x7d\x7d") = canonSeg x [] := by
  rw [rewriteSource_eq]
  have hshape : (cs "\x7b\x7bpartial \"" ++ x ++ cs "\"\x7d\x7d") ++ ['\n'] =
      quotSeg 'p' (cs "artial \"") x [] := by
    rw [quotSeg_part_eq]
    simp [List.append_assoc]
  rw [hshape,
    replaceG_of_noMatch (nqsP_pComPart x [] hx (by decide)),
    replaceG_of_noMatch (nqsP_pComInc x [] hx (by decide)),
    quotSeg_part_eq, replaceG_quotPart x [] hne hx,
    replaceG_of_noMatch (show NoMatch pQuotPart ['\n'] by decide)]
  have hcan : cs "\x7b\x7b> " ++ (x ++ (cs "\x7d\x7d" ++ '\n' :: ([] : List Char))) =
      canonSeg x [] := rfl
  rw [hcan,
    replaceG_of_noMatch (ncs_pQuotInc x [] hx (by decide)),
    replaceG_of_noMatch (ncs_pQuotSeed x [] hx (by decide)),
    replaceG_of_noMatch (ncs_pWithTwo x [] hx (by decide)),
    replaceG_of_noMatch (ncs_pWithOne x [] hx (by decide)),
    replaceG_of_noMatch (ncs_pWithJoin x [] hx (by decide)),
    replaceG_of_noMatch (ncs_pJoin x [] hx (by decide)),
    replaceG_of_noMatch (ncs_pUpcase x [] hx (by decide)),
    replaceG_of_noMatch (ncs_pDotStrip x [] hx (by decide))]

theorem rewriteSource_quotInc (x : List Char) (hne : x ≠ [])
    (hx : ∀ c ∈ x, c ∈ refChars) :
    rewriteSource (cs "\x7b\x7binclude \"" ++ x ++ cs "\"\x7d\x7d") = canonSeg x [] := by
  rw [rewriteSource_eq]
  have hshape : (cs "\x7b\x7binclude \"" ++ x ++ cs "\"\x7d\x7d") ++ ['\n'] =
      quotSeg 'i' (cs "nclude \"") x [] := by
    rw [quotSeg_inc_eq]
    simp [List.append_assoc]
  rw [hshape,
    replaceG_of_noMatch (nqsI_pComPart x [] hx (by decide)),
    replaceG_of_noMatch (nqsI_pComInc x [] hx (by decide)),
    replaceG_of_noMatch (nqsI_pQuotPart x [] hx (by decide)),
    quotSeg_inc_eq, replaceG_quotInc x [] hne hx,
    replaceG_of_noMatch (show NoMatch pQuotInc ['\n'] by decide)]
  have hcan : cs "\x7b\x7b> " ++ (x ++ (cs "\x7d\x7d" ++ '\n' :: ([] : List Char))) =
      canonSeg x [] := rfl
  rw [hcan,
    replaceG_of_noMatch (ncs_pQuotSeed x [] hx (by decide)),
    replaceG_of_noMatch (ncs_pWithTwo x [] hx (by decide)),
    replaceG_of_noMatch (ncs_pWithOne x [] hx (by decide)),
    replaceG_of_noMatch (ncs_pWithJoin x [] hx (by decide)),
    replaceG_of_noMatch (ncs_pJoin x [] hx (by decide)),
    replaceG_of_noMatch (ncs_pUpcase x [] hx (by decide)),
    replaceG_of_noMatch (ncs_pDotStrip x [] hx (by decide))]

/-- C5: every supported legacy spelling of a partial/include directive
with reference string `x` (comment-style partial, comment-style include,
quoted-helper partial, quoted-helper include) normalizes to the identical
canonical partial-reference markup produced for the canonical spelling
itself, namely `{{> x}}` followed by the appended trailing newline. -/
theorem C5_spelling_invariance (x : List Char) (h : goodRef x) :
    rewriteSource (cs "<!-- partial(" ++ x ++ cs ") -->") =
        rewriteSource (cs "\x7b\x7b> " ++ x ++ cs "\x7d\x7d") ∧
    rewriteSource (cs "<!-- include(" ++ x ++ cs ") -->") =
        rewriteSource (cs "\x7b\x7b> " ++ x ++ cs "\x7d\x7d") ∧
    rewriteSource (cs "\x7b\x7bpartial \"" ++ x ++ cs "\"\x7d\x7d") =
        rewriteSource (cs "\x7b\x7b> " ++ x ++ cs "\x7d\x7d") ∧
    rewriteSource (cs "\x7b\x7binclude \"" ++ x ++ cs "\"\x7d\x7d") =
        rewriteSource (cs "\x7b\x7b> " ++ x ++ cs "\x7d\x7d") ∧
    rewriteSource (cs "\x7b\x7b> " ++ x ++ cs "\x7d\x7d") =
        cs "\x7b\x7b> " ++ x ++ cs "\x7d\x7d\n" := by
  obtain ⟨hne, hx⟩ := h
  have hcanon := rewriteSource_canonical x hx
  refine ⟨?_, ?_, ?_, ?_, ?_⟩
  · rw [rewriteSource_comPart x hne hx, hcanon]
  · rw [rewriteSource_comInc x hne hx, hcanon]
  · rw [rewriteSource_quotPart x hne hx, hcanon]
  · rw [rewriteSource_quotInc x hne hx, hcanon]
  · rw [hcanon]
    simp [canonSeg, cs]

/-- Witness for C5 at the concrete reference string `a.txt`. -/
theorem C5_spelling_invariance_witness :
    goodRef (cs "a.txt") ∧
    rewriteSource (cs "<!-- partial(" ++ cs "a.txt" ++ cs ") -->") =
      rewriteSource (cs "\x7b\x7b> " ++ cs "a.txt" ++ cs "\x7d\x7d") :=
  ⟨by decide, (C5_spelling_invariance (cs "a.txt") (by decide)).1⟩

/-- C4: on input already written entirely in canonical syntax the
normalizer is the identity except for appending one trailing newline. -/
theorem C4_canonical_roundtrip (s : List Char) (h : canonicalText s) :
    rewriteSource s = s ++ ['\n'] := by
  rw [rewriteSource_eq,
    replaceG_of_noMatch (h pComPart (by decide)),
    replaceG_of_noMatch (h pComInc (by decide)),
    replaceG_of_noMatch (h pQuotPart (by decide)),
    replaceG_of_noMatch (h pQuotInc (by decide)),
    replaceG_of_noMatch (h pQuotSeed (by decide)),
    replaceG_of_noMatch (h pWithTwo (by decide)),
    replaceG_of_noMatch (h pWithOne (by decide)),
    replaceG_of_noMatch (h pWithJoin (by decide)),
    replaceG_of_noMatch (h pJoin (by decide)),
    replaceG_of_noMatch (h pUpcase (by decide)),
    replaceG_of_noMatch (h pDotStrip (by decide))]

/-- Witness for C4: a concrete canonical document (a partial reference,
a seed comment, interpolations and both canonical helper calls). -/
theorem C4_canonical_roundtrip_witness :
    canonicalText (cs "# T\n\x7b\x7b> other.md\x7d\x7d\n<!-- seed(d.json) -->\n\x7b\x7bname\x7d\x7d \x7b\x7bjoin xs\x7d\x7d \x7b\x7bupcase t\x7d\x7d") ∧
    rewriteSource (cs "# T\n\x7b\x7b> other.md\x7d\x7d\n<!-- seed(d.json) -->\n\x7b\x7bname\x7d\x7d \x7b\x7bjoin xs\x7d\x7d \x7b\x7bupcase t\x7d\x7d") =
      cs "# T\n\x7b\x7b> other.md\x7d\x7d\n<!-- seed(d.json) -->\n\x7b\x7bname\x7d\x7d \x7b\x7bjoin xs\x7d\x7d \x7b\x7bupcase t\x7d\x7d" ++ ['\n'] :=
  ⟨by decide, C4_canonical_roundtrip _ (by decide)⟩

/-! ### C6: the output can be shorter than the input -/
/-- C6 counterexample: a comment-style partial directive rewrites to a
strictly shorter canonical directive, so the normalizer's output length
is not in general at least the input length (plus the newline). -/
theorem C6_length_counterexample :
    rewriteSource (cs "<!-- partial(a) -->") = cs "\x7b\x7b> a\x7d\x7d\n" ∧
    (rewriteSource (cs "<!-- partial(a) -->")).length <
      (cs "<!-- partial(a) -->").length := by
  constructor
  · decide
  · decide

/-! ### C8: same-kind directives on one line -/
/-- C8 counterexample: two comment-style partial markers on one line are
swallowed by a single greedy match, yielding one canonical directive
whose reference string spans both markers — not two independent
directives with the original reference strings. -/
theorem C8_same_line_counterexample :
    rewriteSource (cs "<!-- partial(a) --> <!-- partial(b) -->") =
      cs "\x7b\x7b> a) --> <!-- partial(b\x7d\x7d\n" ∧
    extractPartials (rewriteSource (cs "<!-- partial(a) --> <!-- partial(b) -->")) =
      [[cs "a) --> <!-- partial(b"]] := by
  constructor
  · decide
  · decide

/-- C8 amended: two comment-style partial directives on separate lines
are each rewritten independently into their own canonical directive with
the original reference strings (global matching continues after each
match); only same-line markers are merged by the greedy pattern. -/
theorem C8_amended_separate_lines (a b : List Char) (ha : goodRef a)
    (hb : goodRef b) :
    rewriteSource (cs "<!-- partial(" ++ a ++ cs ") -->\n<!-- partial(" ++ b ++
        cs ") -->") =
      cs "\x7b\x7b> " ++ a ++ cs "\x7d\x7d\n\x7b\x7b> " ++ b ++ cs "\x7d\x7d\n" := by
  obtain ⟨hnea, hxa⟩ := ha
  obtain ⟨hneb, hxb⟩ := hb
  rw [rewriteSource_eq]
  have hshape : (cs "<!-- partial(" ++ a ++ cs ") -->\n<!-- partial(" ++ b ++
      cs ") -->") ++ ['\n'] =
      cs "<!-- partial(" ++ (a ++ (cs ") -->" ++ '\n' ::
        (cs "<!-- partial(" ++ (b ++ (cs ") -->" ++ '\n' :: ([] : List Char)))))) := by
    simp [cs, List.append_assoc]
  rw [hshape, replaceG_comPart a _ hnea hxa]
  have hstep : replaceG pComPart tmplPartialRef
      ('\n' :: (cs "<!-- partial(" ++ (b ++ (cs ") -->" ++ '\n' :: ([] : List Char))))) =
      '\n' :: (cs "\x7b\x7b> " ++ (b ++ (cs "\x7d\x7d" ++
        replaceG pComPart tmplPartialRef ('\n' :: ([] : List Char))))) := by
    rw [replaceG_cons_of_none (by
      exact matchAt_lit_head_ne (cs "!-- partial(") [RItem.grp, .lit (cs ") -->")] _
        (by decide)), replaceG_comPart b [] hneb hxb]
  rw [hstep, replaceG_of_noMatch (show NoMatch pComPart ['\n'] by decide)]
  have hcan : cs "\x7b\x7b> " ++ (a ++ (cs "\x7d\x7d" ++ '\n' ::
      (cs "\x7b\x7b> " ++ (b ++ (cs "\x7d\x7d" ++ '\n' :: ([] : List Char)))))) =
      canonSeg a (canonSeg b []) := rfl
  rw [hcan]
  rw [replaceG_of_noMatch (ncs_pComInc a _ hxa (ncs_pComInc b [] hxb (by decide))),
    replaceG_of_noMatch (ncs_pQuotPart a _ hxa (ncs_pQuotPart b [] hxb (by decide))),
    replaceG_of_noMatch (ncs_pQuotInc a _ hxa (ncs_pQuotInc b [] hxb (by decide))),
    replaceG_of_noMatch (ncs_pQuotSeed a _ hxa (ncs_pQuotSeed b [] hxb (by decide))),
    replaceG_of_noMatch (ncs_pWithTwo a _ hxa (ncs_pWithTwo b [] hxb (by decide))),
    replaceG_of_noMatch (ncs_pWithOne a _ hxa (ncs_pWithOne b [] hxb (by decide))),
    replaceG_of_noMatch (ncs_pWithJoin a _ hxa (ncs_pWithJoin b [] hxb (by decide))),
    replaceG_of_noMatch (ncs_pJoin a _ hxa (ncs_pJoin b [] hxb (by decide))),
    replaceG_of_noMatch (ncs_pUpcase a _ hxa (ncs_pUpcase b [] hxb (by decide))),
    replaceG_of_noMatch (ncs_pDotStrip a _ hxa (ncs_pDotStrip b [] hxb (by decide)))]
  simp [canonSeg, cs, List.append_assoc]

/-- Witness for the amended C8 at concrete reference strings. -/
theorem C8_amended_separate_lines_witness :
    goodRef (cs "a.md") ∧ goodRef (cs "b.md") ∧
    rewriteSource (cs "<!-- partial(" ++ cs "a.md" ++ cs ") -->\n<!-- partial(" ++
        cs "b.md" ++ cs ") -->") =
      cs "\x7b\x7b> " ++ cs "a.md" ++ cs "\x7d\x7d\n\x7b\x7b> " ++ cs "b.md" ++
        cs "\x7d\x7d\n" :=
  ⟨by decide, by decide,
    C8_amended_separate_lines (cs "a.md") (cs "b.md") (by decide) (by decide)⟩

/-! ### C10: greedy seed-comment stripping -/
/-- Variant of `matchAt_grp_exact` for a line that continues with
arbitrary non-newline text after the closing literal. -/
theorem matchAt_grp_exact_gen (restItems : Pat) (g mid t : List Char)
    (caps' : List (List Char)) (r : List Char)
    (hg : g ≠ []) (hgnl : ∀ c ∈ g, isLineTerm c = false)
    (hmnl : ∀ c ∈ mid, isLineTerm c = false)
    (htnl : ∀ c ∈ t, isLineTerm c = false)
    (hok : matchAt restItems (mid ++ t) = some (caps', r))
    (hfail : ∀ j, 1 ≤ j → j ≤ mid.length + t.length →
      matchAt restItems ((mid ++ t).drop j) = none) :
    matchAt (.grp :: restItems) (g ++ (mid ++ t)) = some (g :: caps', r) := by
  have hgb : ∀ c ∈ g, (fun c => !isLineTerm c) c = true := by
    intro c hc
    simp [hgnl c hc]
  have hmb : ∀ c ∈ mid, (fun c => !isLineTerm c) c = true := by
    intro c hc
    simp [hmnl c hc]
  have htb : ∀ c ∈ t, (fun c => !isLineTerm c) c = true := by
    intro c hc
    simp [htnl c hc]
  have htw : ((g ++ (mid ++ t)).takeWhile (fun c => !isLineTerm c)).length
      = g.length + (mid.length + t.length) := by
    rw [takeWhile_append_all hgb, takeWhile_append_all hmb,
      List.takeWhile_eq_self_iff.mpr htb]
    simp
  simp only [matchAt, htw]
  rw [firstSome_prefixesDesc_skip _ _ g.length (mid.length + t.length) (by
    intro k hk1 hk2
    have hd : (g ++ (mid ++ t)).drop k = (mid ++ t).drop (k - g.length) := by
      rw [List.drop_append_eq_append_drop, List.drop_eq_nil_of_le (by omega),
        List.nil_append]
    rw [hd, hfail (k - g.length) (by omega) (by omega)]
    rfl)]
  rcases g with _ | ⟨c0, g'⟩
  · exact absurd rfl hg
  · have hlen : g'.length + 1 = (c0 :: g').length := rfl
    simp only [prefixesDesc, firstSome]
    rw [hlen, List.take_left, List.drop_left, hok]
    rfl

/-- C10 counterexample: the removal span does not in general stop at
the end of the last seed-comment marker on the line.  The greedy group
runs to the last occurrence of the closing sequence `) -->` anywhere on
the line, so a stray `) -->` in the text after the second marker is
swallowed too: the claim predicts "A  x) --> y", the code produces
"A  y". -/
theorem C10_stray_closer_counterexample :
    cleanupSource (cs "A <!-- seed(a) --> m <!-- seed(b) --> x) --> y") =
      cs "A  y" ∧
    cs "A  y" ≠ cs "A  x) --> y" :=
  ⟨rfl, by decide⟩

/-- C10 amended: on a line (text free of JS line terminators) carrying
two seed-comment markers, the greedy single-line pattern removes the
span from the start of the first marker to the last occurrence of the
closing sequence `) -->` on the line.  When the text after the second
marker contains no further `)` or `<`, that last closer is the second
marker's own, so the removal runs exactly from the first marker through
the end of the last marker, swallowing the text between them (which may
itself contain further markers); a line on which the marker pattern
does not match anywhere is returned unchanged. -/
theorem C10_amended_greedy_span (p a m b t : List Char)
    (hp : '<' ∉ p) (ha : goodRef a) (hb : goodRef b)
    (hm : ∀ c ∈ m, isLineTerm c = false)
    (ht1 : ')' ∉ t) (ht2 : '<' ∉ t) (ht3 : ∀ c ∈ t, isLineTerm c = false) :
    cleanupSource (p ++ cs "<!-- seed(" ++ a ++ cs ") -->" ++ m ++
        cs "<!-- seed(" ++ b ++ cs ") -->" ++ t) = p ++ t ∧
    (∀ line, NoMatch patSeedComment line → cleanupSource line = line) := by
  constructor
  · have hna : ∀ c ∈ a, isLineTerm c = false := refChars_lineTerm_free ha.2
    have hnb : ∀ c ∈ b, isLineTerm c = false := refChars_lineTerm_free hb.2
    have hshape : p ++ cs "<!-- seed(" ++ a ++ cs ") -->" ++ m ++
        cs "<!-- seed(" ++ b ++ cs ") -->" ++ t =
        p ++ (cs "<!-- seed(" ++
          ((a ++ (cs ") -->" ++ (m ++ (cs "<!-- seed(" ++ b)))) ++
            (cs ") -->" ++ t))) := by
      simp [List.append_assoc]
    unfold cleanupSource
    rw [hshape, replaceG_prefix_skip
      (show patSeedComment =
        .lit ('<' :: cs "!-- seed(") :: [RItem.grp, .lit (cs ") -->")] from rfl)
      _ hp]
    have hgnl : ∀ c ∈ (a ++ (cs ") -->" ++ (m ++ (cs "<!-- seed(" ++ b)))),
        isLineTerm c = false := by
      intro c hc
      simp only [List.mem_append] at hc
      rcases hc with h | h | h | h | h
      · exact hna c h
      · exact (by decide : ∀ c ∈ cs ") -->", isLineTerm c = false) c h
      · exact hm c h
      · exact (by decide : ∀ c ∈ cs "<!-- seed(", isLineTerm c = false) c h
      · exact hnb c h
    have hgne : (a ++ (cs ") -->" ++ (m ++ (cs "<!-- seed(" ++ b)))) ≠ [] := by
      intro hcon
      have := List.append_eq_nil.mp hcon
      exact ha.1 this.1
    have hm1 : matchAt patSeedComment
        (cs "<!-- seed(" ++
          ((a ++ (cs ") -->" ++ (m ++ (cs "<!-- seed(" ++ b)))) ++
            (cs ") -->" ++ t))) =
        some ([(a ++ (cs ") -->" ++ (m ++ (cs "<!-- seed(" ++ b))))], t) := by
      show matchAt (.lit (cs "<!-- seed(") :: [RItem.grp, .lit (cs ") -->")]) _ = _
      rw [matchAt_lit_append]
      exact matchAt_grp_exact_gen [RItem.lit (cs ") -->")] _ (cs ") -->") t [] t
        hgne hgnl (by decide) ht3
        (by rw [matchAt_lit_append]; rfl)
        (by
          intro j h1 h2
          simp only [cs, List.length_cons, List.length_nil] at h2
          by_cases hj : j ≤ 4
          · interval_cases j <;>
              simp +decide [cs, matchAt, isLineTerm, litPref, List.drop_succ_cons]
          · have hdrop : (cs ") -->" ++ t).drop j = t.drop (j - 5) := by
              rw [List.drop_append_eq_append_drop,
                List.drop_eq_nil_of_le (by simp [cs]; omega), List.nil_append]
              simp [cs]
            rw [hdrop]
            rcases hd : t.drop (j - 5) with _ | ⟨c, u⟩
            · exact matchAt_lit_nil ')' (cs " -->") []
            · have hcmem : c ∈ t := by
                have : c ∈ t.drop (j - 5) := by
                  rw [hd]; exact List.mem_cons_self c u
                exact List.drop_subset _ t this
              exact matchAt_lit_head_ne (cs " -->") [] u
                (fun hc => ht1 (hc ▸ hcmem)))
    have hr : t.length < (cs "<!-- seed(" ++
        ((a ++ (cs ") -->" ++ (m ++ (cs "<!-- seed(" ++ b)))) ++
          (cs ") -->" ++ t))).length := by
      simp [cs]
      omega
    rw [replaceG_match hm1 hr,
      replaceG_of_noMatch (noMatch_of_head_notin
        (show patSeedComment =
          .lit ('<' :: cs "!-- seed(") :: [RItem.grp, .lit (cs ") -->")] from rfl)
        ht2)]
    simp
  · intro line hline
    exact replaceG_of_noMatch hline

/-- Witness for the amended C10: a concrete two-marker line whose tail
holds no stray closer (the middle text itself contains a third marker,
which the greedy span also swallows) and a concrete marker-free line. -/
theorem C10_amended_greedy_span_witness :
    cleanupSource (cs "A " ++ cs "<!-- seed(" ++ cs "a.json" ++ cs ") -->" ++
        cs " mid <!-- seed(q.json) --> y " ++ cs "<!-- seed(" ++ cs "b.json" ++
        cs ") -->" ++ cs " Z") = cs "A " ++ cs " Z" ∧
    cleanupSource (cs "no markers here") = cs "no markers here" := by
  have h := C10_amended_greedy_span (cs "A ") (cs "a.json")
    (cs " mid <!-- seed(q.json) --> y ") (cs "b.json") (cs " Z")
    (by decide) (by decide) (by decide) (by decide) (by decide) (by decide)
    (by decide)
  exact ⟨h.1, h.2 (cs "no markers here") (by decide)⟩

/-! ### C6 amended: the output always ends in the appended newline -/
theorem lastQ_append {α : Type} {l1 l2 : List α} (h : l2 ≠ []) :
    (l1 ++ l2).getLast? = l2.getLast? := by
  induction l1 with
  | nil => rfl
  | cons a l ih =>
    rw [List.cons_append]
    rcases hX : l ++ l2 with _ | ⟨b, Y⟩
    · exact absurd (List.append_eq_nil.mp hX).2 h
    · rw [List.getLast?_cons_cons, ← hX, ih]

theorem firstSome_eq_some {α β : Type} {f : α → Option β} {l : List α} {b : β}
    (h : firstSome f l = some b) : ∃ a ∈ l, f a = some b := by
  induction l with
  | nil => simp [firstSome] at h
  | cons a as ih =>
    simp only [firstSome] at h
    rcases hf : f a with _ | b'
    · rw [hf] at h
      obtain ⟨a', ha', hfa'⟩ := ih h
      exact ⟨a', List.mem_cons_of_mem _ ha', hfa'⟩
    · rw [hf] at h
      obtain rfl : b' = b := by simpa using h
      exact ⟨a, List.mem_cons_self _ _, hf⟩

theorem mem_prefixesDesc {s : List Char} :
    ∀ {n : Nat} {pp : List Char × List Char}, pp ∈ prefixesDesc s n →
      ∃ k, 1 ≤ k ∧ k ≤ n ∧ pp = (s.take k, s.drop k) := by
  intro n
  induction n with
  | zero => intro pp h; simp [prefixesDesc] at h
  | succ n ih =>
    intro pp h
    simp only [prefixesDesc, List.mem_cons] at h
    rcases h with h | h
    · exact ⟨n + 1, by omega, by omega, h⟩
    · obtain ⟨k, h1, h2, h3⟩ := ih h
      exact ⟨k, h1, by omega, h3⟩

/-- Every successful match of a pattern ending in a literal decomposes
the input as (consumed prefix) ++ closing literal ++ rest. -/
theorem matchAt_ends (lc : List Char) :
    ∀ (q' : Pat) (s : List Char) (caps : List (List Char)) (r : List Char),
      matchAt (q' ++ [.lit lc]) s = some (caps, r) → ∃ u, s = u ++ (lc ++ r) := by
  intro q'
  induction q' with
  | nil =>
    intro s caps r h
    simp only [List.nil_append, matchAt] at h
    rcases hl : litPref lc s with _ | t
    · rw [hl] at h; simp at h
    · rw [hl] at h
      simp only [matchAt, Option.some.injEq, Prod.mk.injEq] at h
      refine ⟨[], ?_⟩
      rw [litPref_eq_some hl, h.2]
      rfl
  | cons it q'' ih =>
    intro s caps r h
    rw [List.cons_append] at h
    cases it with
    | lit l =>
      simp only [matchAt] at h
      rcases hl : litPref l s with _ | t
      · rw [hl] at h; simp at h
      · rw [hl] at h
        obtain ⟨u, hu⟩ := ih t caps r h
        exact ⟨l ++ u, by rw [litPref_eq_some hl, hu, List.append_assoc]⟩
    | grp =>
      simp only [matchAt] at h
      obtain ⟨pp, hpp, hfpp⟩ := firstSome_eq_some h
      obtain ⟨k, _, _, rfl⟩ := mem_prefixesDesc hpp
      replace hfpp : (matchAt (q'' ++ [.lit lc]) (s.drop k)).map
          (fun cr => (s.take k :: cr.1, cr.2)) = some (caps, r) := hfpp
      rcases hma : matchAt (q'' ++ [.lit lc]) (s.drop k) with _ | cr
      · rw [hma] at hfpp; simp at hfpp
      · rw [hma] at hfpp
        obtain ⟨u, hu⟩ := ih (s.drop k) cr.1 cr.2 (by rw [hma])
        have hpair : (s.take k :: cr.1, cr.2) = (caps, r) := by
          simpa using hfpp
        have hr : r = cr.2 := by
          have := congrArg Prod.snd hpair
          simpa using this.symm
        refine ⟨s.take k ++ u, ?_⟩
        rw [hr, List.append_assoc, ← hu, List.take_append_drop]
    | grpDigits =>
      simp only [matchAt] at h
      obtain ⟨pp, hpp, hfpp⟩ := firstSome_eq_some h
      obtain ⟨k, _, _, rfl⟩ := mem_prefixesDesc hpp
      replace hfpp : (matchAt (q'' ++ [.lit lc]) (s.drop k)).map
          (fun cr => (s.take k :: cr.1, cr.2)) = some (caps, r) := hfpp
      rcases hma : matchAt (q'' ++ [.lit lc]) (s.drop k) with _ | cr
      · rw [hma] at hfpp; simp at hfpp
      · rw [hma] at hfpp
        obtain ⟨u, hu⟩ := ih (s.drop k) cr.1 cr.2 (by rw [hma])
        have hpair : (s.take k :: cr.1, cr.2) = (caps, r) := by
          simpa using hfpp
        have hr : r = cr.2 := by
          have := congrArg Prod.snd hpair
          simpa using this.symm
        refine ⟨s.take k ++ u, ?_⟩
        rw [hr, List.append_assoc, ← hu, List.take_append_drop]
    | wsOpt =>
      rcases s with _ | ⟨c, s'⟩
      · simp only [matchAt] at h
        exact ih [] caps r h
      · simp only [matchAt] at h
        by_cases hws : isWsChar c
        · rw [if_pos hws] at h
          rcases hma : matchAt (q'' ++ [.lit lc]) s' with _ | res
          · rw [hma] at h
            exact ih (c :: s') caps r h
          · rw [hma] at h
            obtain rfl : res = (caps, r) := by simpa using h
            obtain ⟨u, hu⟩ := ih s' caps r hma
            exact ⟨c :: u, by rw [hu]; rfl⟩
        · rw [if_neg hws] at h
          exact ih (c :: s') caps r h
    | chAny =>
      rcases s with _ | ⟨c, s'⟩
      · simp [matchAt] at h
      · simp only [matchAt] at h
        by_cases hnl : isLineTerm c = true
        · rw [if_pos hnl] at h; simp at h
        · rw [if_neg hnl] at h
          obtain ⟨u, hu⟩ := ih s' caps r h
          exact ⟨c :: u, by rw [hu]; rfl⟩

theorem replaceGF_ends (q' : Pat) (lc : List Char) (hlc : lc ≠ [])
    (hnl : '\n' ∉ lc) (tmpl : List (List Char) → List Char) :
    ∀ fuel (s : List Char), s.getLast? = some '\n' →
      (replaceGF (q' ++ [.lit lc]) tmpl fuel s).getLast? = some '\n' := by
  intro fuel
  induction fuel with
  | zero => intro s h; exact h
  | succ f ih =>
    intro s h
    rcases s with _ | ⟨c, rest⟩
    · simp at h
    · rcases hm : matchAt (q' ++ [.lit lc]) (c :: rest) with _ | ⟨caps, r⟩
      · simp only [replaceGF, hm]
        rcases rest with _ | ⟨c2, rest2⟩
        · have hc : c = '\n' := by simpa using h
          have hnil : replaceGF (q' ++ [.lit lc]) tmpl f [] = [] := by
            cases f with
            | zero => rfl
            | succ f' =>
              rcases hm0 : matchAt (q' ++ [.lit lc]) [] with _ | ⟨caps0, r0⟩
              · simp only [replaceGF, hm0]
              · obtain ⟨u, hu⟩ := matchAt_ends lc q' [] caps0 r0 hm0
                exact absurd hu.symm (by simp [hlc])
          rw [hnil, hc]
          rfl
        · have hlast : (c2 :: rest2).getLast? = some '\n' := by
            rwa [List.getLast?_cons_cons] at h
          have hx := ih (c2 :: rest2) hlast
          rcases hy : replaceGF (q' ++ [.lit lc]) tmpl f (c2 :: rest2) with _ | ⟨y, ys⟩
          · rw [hy] at hx
            simp at hx
          · rw [hy] at hx ⊢
            rw [List.getLast?_cons_cons]
            exact hx
      · simp only [replaceGF, hm]
        obtain ⟨u, hu⟩ := matchAt_ends lc q' _ caps r hm
        by_cases hrne : r = []
        · subst hrne
          rw [hu, List.append_nil] at h
          rw [lastQ_append hlc] at h
          have hl2 : lc.getLast? = some (lc.getLast hlc) :=
            List.getLast?_eq_getLast_of_ne_nil hlc
          rw [hl2] at h
          have hlast : lc.getLast hlc = '\n' := by simpa using h
          exact absurd (hlast ▸ List.getLast_mem hlc) hnl
        · have hrlast : r.getLast? = some '\n' := by
            rw [hu] at h
            rwa [lastQ_append (by simp [hrne] : lc ++ r ≠ []),
              lastQ_append hrne] at h
          have hlen : r.length < rest.length + 1 := by
            have hlc1 : 1 ≤ lc.length := by
              rcases lc with _ | _
              · exact absurd rfl hlc
              · simp
            have hlen2 := congrArg List.length hu
            simp only [List.length_cons, List.length_append] at hlen2
            omega
          rw [if_pos hlen]
          have hx := ih r hrlast
          have hxne : replaceGF (q' ++ [.lit lc]) tmpl f r ≠ [] := by
            intro hcon
            rw [hcon] at hx
            simp at hx
          rw [lastQ_append hxne]
          exact hx

theorem replaceG_ends (q' : Pat) (lc : List Char) (hlc : lc ≠ [])
    (hnl : '\n' ∉ lc) (tmpl : List (List Char) → List Char) {s : List Char}
    (h : s.getLast? = some '\n') :
    (replaceG (q' ++ [.lit lc]) tmpl s).getLast? = some '\n' :=
  replaceGF_ends q' lc hlc hnl tmpl _ s h

/-- C6 amended: the normalizer appends one newline and the rewrites can
never consume it — every output ends in a newline — but (see the
counterexample) the output can be strictly shorter than the input, since
legacy directives rewrite to shorter canonical forms. -/
theorem C6_amended_trailing_newline (s : List Char) :
    (rewriteSource s).getLast? = some '\n' := by
  rw [rewriteSource_eq]
  have h0 : (s ++ ['\n']).getLast? = some '\n' := by
    rw [lastQ_append (by simp)]
    rfl
  exact replaceG_ends [] (cs "\x7b\x7b.") (by decide) (by decide) tmplBraces
    (replaceG_ends [.lit (cs "\x7b\x7b."), .grp] (cs " | upcase\x7d\x7d")
      (by decide) (by decide) tmplUpcase
      (replaceG_ends [.lit (cs "\x7b\x7bjoin "), .chAny, .grp, .lit (cs " \","),
          .wsOpt] (cs "\"\x7d\x7d") (by decide) (by decide) tmplJoin
        (replaceG_ends [.lit (cs "\x7b\x7bwith index ."), .grp, .lit (cs " \""),
            .grpDigits, .lit (cs "\"\x7d\x7d"), .wsOpt, .lit (cs "\x7b\x7bjoin ."),
            .grp, .lit (cs " \","), .wsOpt, .lit (cs "\"\x7d\x7d"), .wsOpt]
          (cs "\x7b\x7bend\x7d\x7d") (by decide) (by decide) tmplDots3
          (replaceG_ends [.lit (cs "\x7b\x7bwith index ."), .grp, .lit (cs " \""),
              .grpDigits, .lit (cs "\"\x7d\x7d"), .wsOpt, .lit (cs "\x7b\x7b."),
              .grp, .lit (cs "\x7d\x7d"), .wsOpt]
            (cs "\x7b\x7bend\x7d\x7d") (by decide) (by decide) tmplDots3
            (replaceG_ends [.lit (cs "\x7b\x7bwith index ."), .grp, .lit (cs " \""),
                .grpDigits, .lit (cs "\"\x7d\x7d\x7b\x7bwith index ."), .grp,
                .lit (cs " \""), .grpDigits, .lit (cs "\"\x7d\x7d"), .wsOpt,
                .lit (cs "\x7b\x7b."), .grp, .lit (cs "\x7d\x7d"), .wsOpt]
              (cs "\x7b\x7bend\x7d\x7d\x7b\x7bend\x7d\x7d") (by decide) (by decide)
              tmplDots5
              (replaceG_ends [.lit (cs "\x7b\x7b"), .wsOpt, .lit (cs "seed \""),
                  .grp, .lit (cs "\""), .wsOpt]
                (cs "\x7d\x7d") (by decide) (by decide) tmplSeedComment
                (replaceG_ends [.lit (cs "\x7b\x7b"), .wsOpt, .lit (cs "include \""),
                    .grp, .lit (cs "\""), .wsOpt]
                  (cs "\x7d\x7d") (by decide) (by decide) tmplPartialRef
                  (replaceG_ends [.lit (cs "\x7b\x7b"), .wsOpt,
                      .lit (cs "partial \""), .grp, .lit (cs "\""), .wsOpt]
                    (cs "\x7d\x7d") (by decide) (by decide) tmplPartialRef
                    (replaceG_ends [.lit (cs "<!-- include("), .grp]
                      (cs ") -->") (by decide) (by decide) tmplPartialRef
                      (replaceG_ends [.lit (cs "<!-- partial("), .grp]
                        (cs ") -->") (by decide) (by decide) tmplPartialRef
                        h0))))))))))

theorem loadSeedsGo_cons {fs : FS} {cwd dir : List Char}
    {caps : List (List Char)} {rest : List (List (List Char))} {seeds : Json}
    (content : List Char) (data : Json)
    (hl : lookupFS fs (pathResolve cwd dir (cap caps 0)) = some content)
    (hp : jsonParse content = some data) :
    loadSeedsGo fs cwd dir (caps :: rest) seeds =
      loadSeedsGo fs cwd dir rest (mergeJ seeds data) := by
  simp [loadSeedsGo, hl, hp]

theorem lookupF_removeKey_ne {sf : List (List Char × Json)} {k0 k : List Char}
    (h : ¬ k0 = k) : lookupF (removeKey sf k0) k = lookupF sf k := by
  induction sf with
  | nil => rfl
  | cons p rest ih =>
    obtain ⟨kp, vp⟩ := p
    by_cases hk : kp = k0
    · subst hk
      simp [removeKey, lookupF, h, ih]
    · by_cases hkk : kp = k
      · subst hkk
        simp [removeKey, lookupF, hk]
      · simp [removeKey, lookupF, hk, hkk, ih]

theorem lookupF_mergeFields (df sf : List (List Char × Json)) (k : List Char) :
    lookupF (mergeFields df sf) k =
      match lookupF df k, lookupF sf k with
      | some d, some s0 => some (mergeJ d s0)
      | some d, none => some d
      | none, o => o := by
  induction df generalizing sf with
  | nil => simp [mergeFields, lookupF]
  | cons p df' ih =>
    obtain ⟨k0, d0⟩ := p
    rcases hsf : lookupF sf k0 with _ | s0
    · simp only [mergeFields, hsf]
      by_cases hk : k0 = k
      · subst hk
        simp [lookupF, hsf]
      · simp only [lookupF, if_neg hk]
        exact ih sf
    · simp only [mergeFields, hsf]
      by_cases hk : k0 = k
      · subst hk
        simp [lookupF, hsf]
      · simp only [lookupF, if_neg hk]
        rw [ih (removeKey sf k0), lookupF_removeKey_ne hk]

theorem mergeJ_scalar (d v : Json) (h : isScalar v = true) : mergeJ d v = v := by
  cases v with
  | arr xs => simp [isScalar] at h
  | obj fs => simp [isScalar] at h
  | null => cases d <;> rfl
  | bool b => cases d <;> rfl
  | num n => cases d <;> rfl
  | str s => cases d <;> rfl

/-- C2: with two sibling seed directives in one source file (`a1.json`
declared before `b2.json`), `extractSeeds` reverses the matches and the
accumulator merge makes the earlier directive the last-merged source, so
it wins: the result is `merge(merge({}, B), A)`; on conflicting keys a
scalar value of A replaces B's value wholesale, non-overlapping keys of
both survive, and object-valued conflicts merge recursively field by
field. -/
theorem C2_sibling_seed_precedence (sA sB : List Char)
    (A B : List (List Char × Json))
    (hA : jsonParse sA = some (.obj A)) (hB : jsonParse sB = some (.obj B)) :
    loadSeeds (fsC2 sA sB) (cs "/w") srcC2 (cs "/d") =
      .ok (.obj (mergeFields B A)) ∧
    (∀ k va, lookupF A k = some va → isScalar va = true →
      lookupF (mergeFields B A) k = some va) ∧
    (∀ k va, lookupF A k = some va → lookupF B k = none →
      lookupF (mergeFields B A) k = some va) ∧
    (∀ k vb, lookupF B k = some vb → lookupF A k = none →
      lookupF (mergeFields B A) k = some vb) ∧
    (∀ k oa ob, lookupF A k = some (.obj oa) → lookupF B k = some (.obj ob) →
      lookupF (mergeFields B A) k = some (.obj (mergeFields ob oa))) := by
  refine ⟨?_, ?_, ?_, ?_, ?_⟩
  · show loadSeedsGo _ _ _ (extractSeeds srcC2) (Json.obj []) = _
    rw [show extractSeeds srcC2 = [[cs "b2.json"], [cs "a1.json"]] from rfl]
    have hlb : lookupFS (fsC2 sA sB)
        (pathResolve (cs "/w") (cs "/d") (cap [cs "b2.json"] 0)) = some sB := rfl
    have hla : lookupFS (fsC2 sA sB)
        (pathResolve (cs "/w") (cs "/d") (cap [cs "a1.json"] 0)) = some sA := rfl
    rw [loadSeedsGo_cons sB (.obj B) hlb hB, loadSeedsGo_cons sA (.obj A) hla hA]
    rfl
  · intro k va hva hsc
    rw [lookupF_mergeFields, hva]
    rcases hb : lookupF B k with _ | d
    · rfl
    · simp [mergeJ_scalar d va hsc]
  · intro k va hva hb
    rw [lookupF_mergeFields, hva, hb]
  · intro k vb hvb ha
    rw [lookupF_mergeFields, ha, hvb]
  · intro k oa ob hoa hob
    rw [lookupF_mergeFields, hoa, hob]
    rfl

/-- Witness for C2: concrete seed files with overlapping key `x`; the
merged result keeps `x = 1` (the earlier directive wins), and both
non-overlapping keys survive. -/
theorem C2_sibling_seed_precedence_witness :
    loadSeeds (fsC2 sC2A sC2B) (cs "/w") srcC2 (cs "/d") =
      .ok (.obj (mergeFields jC2B jC2A)) ∧
    lookupF (mergeFields jC2B jC2A) (cs "x") = some (.num 1) ∧
    lookupF (mergeFields jC2B jC2A) (cs "y") = some (.num 1) ∧
    lookupF (mergeFields jC2B jC2A) (cs "z") = some (.num 2) :=
  ⟨(C2_sibling_seed_precedence sC2A sC2B jC2A jC2B rfl rfl).1,
   (C2_sibling_seed_precedence sC2A sC2B jC2A jC2B rfl rfl).2.1 (cs "x")
     (.num 1) rfl rfl,
   rfl, rfl⟩

theorem loadSeedsGo_ok_all {fs : FS} {cwd dir : List Char} :
    ∀ (refs : List (List (List Char))) (seeds m : Json),
      loadSeedsGo fs cwd dir refs seeds = .ok m →
      ∀ caps ∈ refs, ∃ content data,
        lookupFS fs (pathResolve cwd dir (cap caps 0)) = some content ∧
        jsonParse content = some data := by
  intro refs
  induction refs with
  | nil => intro seeds m _ caps hmem; simp at hmem
  | cons caps0 rest ih =>
    intro seeds m h caps hmem
    simp only [loadSeedsGo] at h
    rcases hl : lookupFS fs (pathResolve cwd dir (cap caps0 0)) with _ | content
    · simp only [hl] at h
      exact absurd h (by simp)
    · simp only [hl] at h
      rcases hp : jsonParse content with _ | data
      · simp only [hp] at h
        exact absurd h (by simp)
      · simp only [hp] at h
        rcases List.mem_cons.mp hmem with rfl | hmem'
        · exact ⟨content, data, hl, hp⟩
        · exact ih (mergeJ seeds data) m h caps hmem'

/-- C9: a referenced seed file whose content is not valid JSON produces
a parse error naming the file; a missing seed file produces a not-found
error naming the path; a successful result is only returned when every
referenced seed file exists and parses (no partial merged result); and a
seed failure aborts the whole resolve operation with the same error. -/
theorem C9_seed_error_propagation :
    loadSeeds fsC9bad (cs "/w") (cs "<!-- seed(s.json) -->") (cs "/d") =
      .error (.badJson (cs "/d/s.json")) ∧
    loadSeeds ([] : FS) (cs "/w") (cs "<!-- seed(s.json) -->") (cs "/d") =
      .error (.notFound (cs "/d/s.json")) ∧
    (∀ (fs : FS) (cwd source dir : List Char) (m : Json),
      loadSeeds fs cwd source dir = .ok m →
      ∀ caps ∈ extractSeeds source, ∃ content data,
        lookupFS fs (pathResolve cwd dir (cap caps 0)) = some content ∧
        jsonParse content = some data) ∧
    (∀ (fs : FS) (cwd : List Char) (rfuel fuel : Nat) (source dir : List Char)
        (e : RErr),
      loadSeeds fs cwd (rewriteSource source) dir = .error e →
      rewriteInput fs cwd rfuel fuel source dir = .error e) := by
  refine ⟨rfl, rfl, ?_, ?_⟩
  · intro fs cwd source dir m h caps hmem
    exact loadSeedsGo_ok_all (extractSeeds source) (.obj []) m h caps hmem
  · intro fs cwd rfuel fuel source dir e h
    simp only [rewriteInput, h]

/-- Witness for C9's universally quantified parts, at the concrete C2
file system (all seeds resolve) and at a file system whose seed file is
missing (the whole resolve aborts with the not-found error). -/
theorem C9_seed_error_propagation_witness :
    (∃ content data,
      lookupFS (fsC2 sC2A sC2B)
          (pathResolve (cs "/w") (cs "/d") (cap [cs "a1.json"] 0)) =
        some content ∧ jsonParse content = some data) ∧
    rewriteInput ([] : FS) (cs "/w") 9 9 (cs "<!-- seed(s.json) -->") (cs "/d") =
      .error (.notFound (cs "/d/s.json")) :=
  ⟨C9_seed_error_propagation.2.2.1 (fsC2 sC2A sC2B) (cs "/w") srcC2 (cs "/d")
      (.obj (mergeFields jC2B jC2A)) C2_sibling_seed_precedence_witness.1
      [cs "a1.json"] (by decide),
   C9_seed_error_propagation.2.2.2 ([] : FS) (cs "/w") 9 9
      (cs "<!-- seed(s.json) -->") (cs "/d") (.notFound (cs "/d/s.json")) rfl⟩

/-- C7: the dependency enumeration starts with the resolved root path;
on a root with no references it is exactly the singleton root; on a root
with one partial that itself declares one seed it is exactly root, then
the partial's seed path (collected while recursing into the partial),
then the partial's own path; a partial referenced twice appears twice
(no deduplication). -/
theorem C7_dependency_walk :
    (∀ (fs : FS) (cwd : List Char) (fuel : Nat) (input : List Char)
        (l : List (List Char)),
      extractPaths fs cwd fuel input = .ok l →
      ∃ rest, l = resolve1 cwd input :: rest) ∧
    extractPaths fsC7a (cs "/w") 30 (cs "/r/root.txt") =
      .ok [cs "/r/root.txt"] ∧
    extractPaths fsC7b (cs "/w") 30 (cs "/r/root.txt") =
      .ok [cs "/r/root.txt", cs "/r/s.json", cs "/r/p.txt"] ∧
    extractPaths fsC7c (cs "/w") 30 (cs "/r/root.txt") =
      .ok [cs "/r/root.txt", cs "/r/p.txt", cs "/r/p.txt"] := by
  refine ⟨?_, rfl, rfl, rfl⟩
  intro fs cwd fuel input l h
  unfold extractPaths at h
  rcases h1 : lookupFS fs (resolve1 cwd input) with _ | source
  · simp only [h1] at h
    exact absurd h (by simp)
  · simp only [h1] at h
    rcases h2 : extractChildren fs cwd fuel source (pathDirname input) with e | cl
    · simp only [h2] at h
      exact absurd h (by simp)
    · simp only [h2] at h
      refine ⟨cl, ?_⟩
      simpa using h.symm

/-- Witness for C7's quantified head property, discharged at the
no-references scenario. -/
theorem C7_dependency_walk_witness :
    ∃ rest, [cs "/r/root.txt"] = resolve1 (cs "/w") (cs "/r/root.txt") :: rest :=
  C7_dependency_walk.1 fsC7a (cs "/w") 30 (cs "/r/root.txt") [cs "/r/root.txt"]
    C7_dependency_walk.2.1

/-- C1 counterexample: in the spec's example scenario the code's merged
Seed Context carries `x = 2` — the child's seed value, not the root's —
and the child partial renders as "Hello 2" (with the appended newline),
not "Hello 1": `loadPartials` merges a partial's seeds into the shared
context with the partial's values overriding (`merge(seeds,
childrenSeeds)`), so the root's seed does not win on `x`. -/
theorem C1_example_scenario_counterexample :
    (readRoot fsC1 (cs "/w") 30 30 (cs "/r/root.txt")).map
        (fun r => (lookupJ r.seeds (cs "x"), lookupPM r.partials (cs "child.txt"))) =
      .ok (some (.num 2), some (cs "Hello 2\n")) ∧
    some (Json.num 2) ≠ some (Json.num 1) ∧
    some (cs "Hello 2\n") ≠ some (cs "Hello 1") := by
  refine ⟨rfl, ?_, by decide⟩
  intro h
  simp at h

/-- C1 amended: in the example scenario the resolve operation builds the
merged Seed Context `{x: 2, y: 1, z: 2}` — the child's seed wins on the
overlapping key `x`, because a partial's seeds are merged into the shared
context after the root's with source-overrides-destination semantics —
and the child partial renders as "Hello 2" followed by the appended
trailing newline.  (Only the seed context, the partial map and the
render trace are observed: the root's final text depends on Handlebars
standalone-line whitespace handling, which the embedding does not
model.) -/
theorem C1_example_scenario_amended :
    (readRoot fsC1 (cs "/w") 30 30 (cs "/r/root.txt")).map
        (fun r => (r.seeds, r.partials, r.renders)) =
      .ok (.obj [(cs "x", .num 2), (cs "y", .num 1), (cs "z", .num 2)],
           [(cs "child.txt", cs "Hello 2\n")], [cs "child.txt"]) := rfl

/-- C3 counterexample: with the same partial reference occurring in two
sibling directives the resolve operation renders the referenced file
once per occurrence — the render trace records `p.txt` twice, not
once. -/
theorem C3_render_once_counterexample :
    (readRoot fsC3 (cs "/w") 30 30 (cs "/r/root.txt")).map ResolveOut.renders =
      .ok [cs "p.txt", cs "p.txt"] ∧
    [cs "p.txt", cs "p.txt"].count (cs "p.txt") = 2 ∧ (2 : Nat) ≠ 1 := by
  exact ⟨rfl, by decide, by decide⟩

/-- C3 amended: each partial directive occurrence triggers its own
render (a file referenced by n sibling directives is read and rendered n
times, the last render overwriting the map entry), while the returned
partial map remains flat with one entry per reference string, and
transitively discovered partials appear in the same flat map keyed by
their own reference strings. -/
theorem C3_amended_render_per_occurrence :
    (readRoot fsC3 (cs "/w") 30 30 (cs "/r/root.txt")).map
        (fun r => (r.renders, r.partials)) =
      .ok ([cs "p.txt", cs "p.txt"], [(cs "p.txt", cs "hi\n")]) ∧
    (readRoot fsC3b (cs "/w") 30 30 (cs "/r/root.txt")).map
        (fun r => r.partials.map Prod.fst) =
      .ok [cs "b.txt", cs "a.txt"] :=
  ⟨rfl, rfl⟩
